import Mathlib

/-
  A verification development for the muddle build orchestrator.

  The definitions below are a shallow embedding of the Python sources:
  `muddled/db.py` (the persistent tag/rule store and its scheduler
  primitives), `muddled/licenses.py` (GPL propagation analysis) and
  `muddled/subst.py` (the substitution language).  Machine state held in
  the sqlite database is modelled as explicit Lean structures; SQL
  statements become list transformations; Python exceptions become
  `Except` results.
-/

namespace Muddle

/-- Modelled from the spec: the `Label` value type of `muddled/depend.py`
(the file itself is not part of the sources here).  A label is a 5-tuple
`(type, name, role, tag, domain)` plus two boolean flags `transient` and
`system`; per the spec, the flags are not part of identity.  `role` and
`domain` may be unset. -/
structure Label where
  type : String
  name : String
  role : Option String
  tag : String
  domain : Option String
  transient : Bool
  system : Bool
deriving DecidableEq

/-- Modelled from the spec: Python `Label.__eq__` compares only the five
identifying fields ("flags are not identity").  Set membership and
dictionary keys in the Python code use this equality. -/
def Label.sameIdent (a b : Label) : Bool :=
  decide (a.type = b.type) && decide (a.name = b.name) &&
    decide (a.role = b.role) && decide (a.tag = b.tag) &&
    decide (a.domain = b.domain)

/-- Modelled from the spec: a label is a wildcard if any of its four
identifying string fields is `*`. -/
def Label.is_wildcard (l : Label) : Bool :=
  decide (l.type = "*") || decide (l.name = "*") ||
    decide (l.role = some "*") || decide (l.tag = "*")

/-- Modelled from the spec: `copy_with_domain(None)` clears the domain
component. -/
def Label.copy_with_domain_none (l : Label) : Label :=
  { l with domain := none }

/-- Modelled from the spec: `copy_with_tag(t)` replaces the tag. -/
def Label.copy_with_tag (l : Label) (t : String) : Label :=
  { l with tag := t }

/-- The form in which a label is written into the sqlite store: db.py
registers an adapter `str(label.copy_with_flags(system=False))`, so the
stored text keeps the 5-tuple and the transient flag but never the
system flag.  We model the stored text by the label with `system`
forced off. -/
def Label.stored (l : Label) : Label :=
  { l with system := false }

/-- The key used in a (sub)domain's `labels` table: the label is passed
through `copy_with_domain(None)` before the sqlite adapter applies. -/
def Label.store_key (l : Label) : Label :=
  l.copy_with_domain_none.stored

/-- Modelled from the spec: a rule is (target label, action, set of dep
labels); of the action only `requires_master()` is observable to the
store, so it is embedded as a boolean. -/
structure Rule where
  target : Label
  deps : List Label
  req_master : Bool
deriving DecidableEq

/-! ### The sqlite schema of db.py (`_connect_db`) -/

/-- One row of the root `rules` table.  The `pickle` column holds the
rule itself (db.py pickles the rule object); the `timestamp` column is
written on the same updates as `status` and read by nothing embedded
here, so it is omitted. -/
structure RuleRow where
  target : Label
  transient : Bool
  pickle : Rule
  req_master : Bool
  owner_pid : Option Nat
  status : Nat
  owner_uuid : Option Nat
deriving DecidableEq

/-- One row of a `labels` table (present in the root store and in each
subdomain's store). -/
structure LabelRow where
  label : Label
  done : Bool
  transient : Bool
deriving DecidableEq

/-- One row of the root `processes` table. -/
structure ProcRow where
  master : Bool
  pid : Nat
  uuid : Nat
  pause_requested_by : Option Nat
  paused : Bool
deriving DecidableEq

/-- The root store (`<root>/.muddle/tags_db`): all tables except the
per-subdomain `labels` tables. -/
structure RootStore where
  rules : List RuleRow
  labels : List LabelRow
  rules_to_labels : List (Label × Label)
  labels_to_rules : List (Label × Label)
  rules_to_build : List (Label × Bool)
  processes : List ProcRow
deriving DecidableEq

/-- The whole persistent state: the root store plus one `labels` table
per subdomain (`_connect_domain_db`), as an association list keyed by
domain name. -/
structure Store where
  root : RootStore
  domain_labels : List (String × List LabelRow)
deriving DecidableEq

/-- The `labels` table reached by `_connect_domain_db(domain)`:
the root's own table for `domain = None`, a subdomain's otherwise. -/
def Store.labelsFor (st : Store) (domain : Option String) : List LabelRow :=
  match domain with
  | none => st.root.labels
  | some d => ((st.domain_labels.find? (fun p => decide (p.1 = d))).map Prod.snd).getD []

/-- Replace the `labels` table selected by `labelsFor`. -/
def Store.setLabelsFor (st : Store) (domain : Option String) (t : List LabelRow) : Store :=
  match domain with
  | none => { st with root := { st.root with labels := t } }
  | some d => { st with domain_labels :=
      st.domain_labels.map (fun p => if p.1 = d then (p.1, t) else p) }

/-- A `Database` object as seen by one worker process: the shared store
plus the process-local transient sets and the process identity
(`os.getpid()` and the module-level `UUID`). -/
structure Database where
  store : Store
  local_tags : List Label
  local_rules : List Rule
  pid : Nat
  uuid : Nat
deriving DecidableEq

namespace Database

/-- `Database.CLEAR` -/
def CLEAR : Nat := 0
/-- `Database.PROCESSING` -/
def PROCESSING : Nat := 1
/-- `Database.DONE` -/
def DONE : Nat := 2

/-- Errors raised by the embedded operations: muddle's own `GiveUp` and
`MuddleBug`, plus Python runtime errors that unguarded code can hit. -/
inductive Err where
  | giveUp (msg : String)
  | muddleBug (msg : String)
  | pyKeyError
  | pyTypeError
  | pyAttrError
deriving DecidableEq

instance {ε α : Type _} [DecidableEq ε] [DecidableEq α] :
    DecidableEq (Except ε α) := fun a b =>
  match a, b with
  | .error e, .error f =>
    if h : e = f then .isTrue (by rw [h])
    else .isFalse (fun hc => h (Except.error.inj hc))
  | .ok x, .ok y =>
    if h : x = y then .isTrue (by rw [h])
    else .isFalse (fun hc => h (Except.ok.inj hc))
  | .error _, .ok _ => .isFalse (fun hc => Except.noConfusion hc)
  | .ok _, .error _ => .isFalse (fun hc => Except.noConfusion hc)

/-- `Database.is_tag_done` (db.py:1710): a transient label is looked up
only in the process-local `local_tags` set (Python set membership uses
`Label.__eq__`, i.e. identity fields only); otherwise the appropriate
domain's `labels` table is queried for `label=? AND done=1` with the
label stored domainless. -/
def is_tag_done (db : Database) (l : Label) : Bool :=
  if l.transient then
    db.local_tags.any (fun t => t.sameIdent l)
  else
    (db.store.labelsFor l.domain).any
      (fun row => decide (row.label = l.store_key) && row.done)

/-- `Database.set_tag` (db.py:1718): a transient label is added only to
the process-local set; otherwise `INSERT OR REPLACE` into the domain's
`labels` table with `done=1`. -/
def set_tag (db : Database) (l : Label) : Database :=
  if l.transient then
    if db.local_tags.any (fun t => t.sameIdent l) then db
    else { db with local_tags := l :: db.local_tags }
  else
    let table := db.store.labelsFor l.domain
    let table' := { label := l.store_key, done := true, transient := l.transient } ::
      table.filter (fun row => !(decide (row.label = l.store_key)))
    { db with store := db.store.setLabelsFor l.domain table' }

/-- Does the root `rules` table have a row `target=? AND status=?`. -/
def ruleRowWithStatus (db : Database) (target : Label) (st : Nat) : Bool :=
  db.store.root.rules.any
    (fun r => decide (r.target = target.stored) && decide (r.status = st))

/-- `Database._is_rule_n` (db.py:1578): for a transient target, "done"
lives in the local set; `CLEAR` additionally requires no `PROCESSING`
row; any other state falls through to the database query.  For a
non-transient target the state is just the row's `status`. -/
def is_rule_n (db : Database) (rule : Rule) (state : Nat) : Bool :=
  if rule.target.transient then
    let done := db.local_rules.contains rule
    if state = CLEAR then
      !done && !(ruleRowWithStatus db rule.target PROCESSING)
    else if state = DONE then
      done
    else
      ruleRowWithStatus db rule.target state
  else
    ruleRowWithStatus db rule.target state

/-- `Database.is_rule_clear` -/
def is_rule_clear (db : Database) (rule : Rule) : Bool :=
  is_rule_n db rule CLEAR

/-- `Database.is_rule_processing` -/
def is_rule_processing (db : Database) (rule : Rule) : Bool :=
  is_rule_n db rule PROCESSING

/-- `Database.is_rule_done` -/
def is_rule_done (db : Database) (rule : Rule) : Bool :=
  is_rule_n db rule DONE

/-- `Database.set_rule_processing` (db.py:1637): for a transient target
the rule is first discarded from the local done set; then a conditional
update `SET status=PROCESSING, owner_pid, owner_uuid WHERE target=? AND
status=CLEAR`; finally the row is read back and the call returns true
iff a row now shows this owner with status `PROCESSING`. -/
def set_rule_processing (db : Database) (rule : Rule) : Bool × Database :=
  let lr :=
    if rule.target.transient then
      db.local_rules.filter (fun r => !(decide (r = rule)))
    else db.local_rules
  let rules' := db.store.root.rules.map (fun r =>
    if decide (r.target = rule.target.stored) && decide (r.status = CLEAR) then
      { r with status := PROCESSING, owner_pid := some db.pid, owner_uuid := some db.uuid }
    else r)
  let granted := rules'.any (fun r =>
    decide (r.target = rule.target.stored) && decide (r.owner_uuid = some db.uuid) &&
      decide (r.owner_pid = some db.pid) && decide (r.status = PROCESSING))
  (granted, { db with
      local_rules := lr,
      store := { db.store with root := { db.store.root with rules := rules' } } })

/-- `Database.set_rule_clear` (db.py:1624): discard from the local done
set for a transient target, then reset the row to `CLEAR` with no
owner. -/
def set_rule_clear (db : Database) (rule : Rule) : Database :=
  let lr :=
    if rule.target.transient then
      db.local_rules.filter (fun r => !(decide (r = rule)))
    else db.local_rules
  let rules' := db.store.root.rules.map (fun r =>
    if decide (r.target = rule.target.stored) then
      { r with status := CLEAR, owner_pid := none, owner_uuid := none }
    else r)
  { db with
    local_rules := lr,
    store := { db.store with root := { db.store.root with rules := rules' } } }

/-- `Database.get_rule_for_label` (db.py:1610) in a root build
(`is_domain_db()` false): unpickle the rule stored for this target, if
any. -/
def get_rule_for_label (db : Database) (l : Label) : Option Rule :=
  (db.store.root.rules.find? (fun r => decide (r.target = l.stored))).map (fun r => r.pickle)

/-- `Database._label_wild_rules_done` (db.py:1542): true iff no rule
whose target matches `label` via `labels_to_rules`, other than the rule
whose target is exactly `label`, has a status other than `DONE`. -/
def label_wild_rules_done (db : Database) (label : Label) : Bool :=
  !(db.store.root.labels_to_rules.any (fun p =>
    decide (p.1 = label.stored) && db.store.root.rules.any (fun r =>
      decide (r.target = p.2) && !(decide (p.1 = r.target)) && !(decide (r.status = DONE)))))

/-- `Database._label_exact_rule_done` (db.py:1559): fetches the rule
stored for the label (a missing row makes the Python subscript of
`None` fail) and evaluates `is_rule_done` on it, but the function body
has no `return` statement, so the computed value is discarded and the
caller always receives `None`. -/
def label_exact_rule_done (db : Database) (label : Label) :
    Except Err (Option Bool) :=
  match db.store.root.rules.find? (fun r => decide (r.target = label.stored)) with
  | none => .error .pyTypeError
  | some row =>
    let _ := is_rule_done db row.pickle
    .ok none

/-- The loop body of `set_rule_done` for a wildcard target
(db.py:1691-1696): for each label matching this rule via
`labels_to_rules`, set its tag when `_label_wild_rules_done` holds and
`_label_exact_rule_done` returns a truthy value. -/
def set_rule_done_wild_loop (db : Database) :
    List (Label × Label) → Except Err Database
  | [] => .ok db
  | p :: rest =>
    if label_wild_rules_done db p.1 then
      match label_exact_rule_done db p.1 with
      | .error e => .error e
      | .ok r =>
        let db := if r.getD false then set_tag db p.1 else db
        set_rule_done_wild_loop db rest
    else
      set_rule_done_wild_loop db rest

/-- The database writes of `set_rule_done` before the wildcard loop
(db.py:1671-1687): record a transient rule in the local done set, set
the target's row to `CLEAR` (transient) or `DONE` (otherwise) with no
owner, and for a non-transient target delete it from
`rules_to_build`. -/
def rule_done_base (db : Database) (rule : Rule) : Database :=
  let status := if rule.target.transient then CLEAR else DONE
  let lr :=
    if rule.target.transient then
      (if db.local_rules.contains rule then db.local_rules else rule :: db.local_rules)
    else db.local_rules
  let rules' := db.store.root.rules.map (fun r =>
    if decide (r.target = rule.target.stored) then
      { r with status := status, owner_pid := none, owner_uuid := none }
    else r)
  let rtb' :=
    if rule.target.transient then db.store.root.rules_to_build
    else db.store.root.rules_to_build.filter
      (fun p => !(decide (p.1 = rule.target.stored)))
  { db with
    local_rules := lr,
    store := { db.store with root :=
      { db.store.root with rules := rules', rules_to_build := rtb' } } }

/-- The tail of `set_rule_done` (db.py:1698-1701): a completed
non-wildcard rule whose wildcard siblings are all done tags its own
target, and `is_rule_done` is re-checked, raising `MuddleBug` if it
does not hold. -/
def rule_done_finish (db : Database) (rule : Rule) : Except Err Database :=
  let db :=
    if !rule.target.is_wildcard && label_wild_rules_done db rule.target then
      set_tag db rule.target
    else db
  if !(is_rule_done db rule) then
    .error (.muddleBug "Rule set as done but is_rule_done returning as false!")
  else
    .ok db

/-- `Database.set_rule_done` (db.py:1662): a transient target is reset
to `CLEAR` and recorded in the local done set, a non-transient one is
set to `DONE` and removed from `rules_to_build`; then wildcard/exact
rule completion may set label tags; finally `is_rule_done` is
re-checked and `MuddleBug` raised if it does not hold. -/
def set_rule_done (db : Database) (rule : Rule) : Except Err Database :=
  let db1 := rule_done_base db rule
  let step2 : Except Err Database :=
    if rule.target.is_wildcard then
      set_rule_done_wild_loop db1
        (db1.store.root.labels_to_rules.filter (fun p => decide (p.2 = rule.target.stored)))
    else .ok db1
  match step2 with
  | .error e => .error e
  | .ok db2 => rule_done_finish db2 rule

/-- `Database._rule_deps_satisfied` (db.py:1525): every dependency label
of the rule must pass `is_tag_done` (which consults the appropriate
domain's table, or the local transient set). -/
def rule_deps_satisfied (db : Database) (rule : Rule) : Bool :=
  rule.deps.all (fun l => is_tag_done db l)

/-- Whether a `rules_to_build` target is excluded by the SQL subquery of
`get_satisfied_rule`: it has a dependency in `rules_to_labels` that
joins to a root `labels` row with `done=0 AND transient=0`. -/
def sql_dep_blocked (db : Database) (target : Label) : Bool :=
  db.store.root.rules_to_labels.any (fun p =>
    decide (p.2 = target) && db.store.root.labels.any (fun row =>
      decide (row.label = p.1) && !row.done && !row.transient))

/-- The fetch loop of `get_satisfied_rule` (db.py:1503-1523): for each
remaining candidate, load its rule (Python dereferences the result, so
a missing rule row is an attribute error), skip it unless it is clear
and its deps are satisfied, and return the first survivor. -/
def sat_rule_loop (db : Database) : List (Label × Bool) → Except Err (Option Rule)
  | [] => .ok none
  | p :: rest =>
    match get_rule_for_label db p.1 with
    | none => .error .pyAttrError
    | some rule =>
      if !(is_rule_clear db rule) then sat_rule_loop db rest
      else if !(rule_deps_satisfied db rule) then sat_rule_loop db rest
      else .ok (some rule)

/-- `Database.get_satisfied_rule` (db.py:1470): SQL selects the
`rules_to_build` rows passing the `req_master` filter whose non-transient
root-domain deps are all done, then the loop re-checks each candidate. -/
def get_satisfied_rule (db : Database) (allow_master req_master : Bool) :
    Except Err (Option Rule) :=
  let candidates := db.store.root.rules_to_build.filter (fun p =>
    (if !allow_master then !p.2 else if req_master then p.2 else true) &&
      !(sql_dep_blocked db p.1))
  sat_rule_loop db candidates

/-- `Database.is_master` (db.py:1746): does the `processes` table hold a
row for this pid and uuid with `master=1`. -/
def is_master (db : Database) : Bool :=
  db.store.root.processes.any (fun r =>
    decide (r.pid = db.pid) && decide (r.uuid = db.uuid) && r.master)

/-- `Database.attempt_set_master` (db.py:1757):
`UPDATE OR FAIL processes SET master=1 WHERE pid=? AND uuid=? AND NOT
EXISTS (SELECT master FROM processes WHERE master=1)`.  `OR FAIL`
aborts only on a constraint violation, which setting `master` cannot
cause, so the statement always completes; when a master row exists the
`WHERE` clause matches no row and the table is untouched. -/
def attempt_set_master (db : Database) : Database :=
  let masterExists := db.store.root.processes.any (fun r => r.master)
  let procs' := db.store.root.processes.map (fun r =>
    if decide (r.pid = db.pid) && decide (r.uuid = db.uuid) && !masterExists then
      { r with master := true }
    else r)
  { db with store := { db.store with root := { db.store.root with processes := procs' } } }

/-- `Database.request_pause_others` (db.py:1778): raises `MuddleBug`
when the caller is not the master; otherwise sets
`pause_requested_by=self` on every other process row that has none. -/
def request_pause_others (db : Database) : Except Err Database :=
  if !(is_master db) then
    .error (.muddleBug "requested pause whilst not being master")
  else
    let procs' := db.store.root.processes.map (fun r =>
      if !(decide (r.pid = db.pid)) && !(decide (r.uuid = db.uuid)) &&
          decide (r.pause_requested_by = none) then
        { r with pause_requested_by := some db.uuid }
      else r)
    .ok { db with store := { db.store with root := { db.store.root with processes := procs' } } }

/-- `Database.release_pause_request` (db.py:1787): raises `MuddleBug`
when the caller is not the master; otherwise clears
`pause_requested_by` on every other process row it had set. -/
def release_pause_request (db : Database) : Except Err Database :=
  if !(is_master db) then
    .error (.muddleBug "requested pause release whilst not being master")
  else
    let procs' := db.store.root.processes.map (fun r =>
      if !(decide (r.pid = db.pid)) && !(decide (r.uuid = db.uuid)) &&
          decide (r.pause_requested_by = some db.uuid) then
        { r with pause_requested_by := none }
      else r)
    .ok { db with store := { db.store with root := { db.store.root with processes := procs' } } }

end Database

/-! ### Subdomain upstream merging (db.py:594-731)

The upstream table and checkout data live in the `Database` object's
Python dictionaries, not in sqlite; they are embedded here as
association lists (Python dict keys are unique; iteration follows list
order). -/

/-- Python dict indexing `d[k]`, as an option. -/
def alookup {α : Type _} (t : List (String × α)) (k : String) : Option α :=
  (t.find? (fun p => decide (p.1 = k))).map Prod.snd

/-- Python dict assignment `d[k] = v` for a key already present. -/
def aupdate {α : Type _} (t : List (String × α)) (k : String) (v : α) :
    List (String × α) :=
  t.map (fun p => if p.1 = k then (k, v) else p)

/-- The in-memory side of db.py used by subdomain upstream merging: of
`checkout_data` only each checkout's repository is observed (repositories
are embedded as their canonical strings), and `upstream_repositories`
maps a repository to its upstream repositories, each with a set of
names. -/
structure MemDB where
  checkout_data : List (Label × String)
  upstream_repositories : List (String × List (String × List String))
deriving DecidableEq

/-- `Database._find_checkouts_for_repo` (db.py:1191). -/
def find_checkouts_for_repo (m : MemDB) (repo : String) : List Label :=
  (m.checkout_data.filter (fun p => decide (p.2 = repo))).map Prod.fst

/-- One line per upstream repository with its names, as the error
details of `_subdomain_new_upstream` list them (rendered without
Python's `%r` quoting and sorting, which are cosmetic). -/
def render_upstreams (d : List (String × List String)) : String :=
  String.intercalate "\n"
    (d.map (fun p => "    " ++ p.1 ++ "  " ++ String.intercalate ", " p.2))

/-- The `GiveUp` message of `_subdomain_new_upstream` (db.py:713-731):
it names the subdomain, the repository, the checkouts using it, and
both the original and the subdomain upstream tables. -/
def upstream_conflict_msg (domain orig : String) (cos : List Label)
    (this_up that_up : List (String × List String)) : String :=
  "Subdomain " ++ domain ++ " adds a new upstream to\n  " ++ orig ++
    (if cos.isEmpty then ""
     else "\n  (used by " ++ String.intercalate ", " (cos.map (fun l => l.name)) ++ ")") ++
    "\n  Original upstreams:\n" ++ render_upstreams this_up ++
    "\n  Subdomain " ++ domain ++ " has:\n" ++ render_upstreams that_up

/-- `Database._subdomain_new_upstream` (db.py:682): always raises; its
first statement indexes `self.upstream_repositories[orig_repo]`, which
raises `KeyError` when that repository has no entry, and only otherwise
does it build and raise the explanatory `GiveUp`. -/
def subdomain_new_upstream (self_ : MemDB) (domain orig : String) (other : MemDB) :
    Database.Err :=
  match alookup self_.upstream_repositories orig with
  | none => .pyKeyError
  | some this_up =>
    .giveUp (upstream_conflict_msg domain orig (find_checkouts_for_repo self_ orig)
      this_up ((alookup other.upstream_repositories orig).getD []))

/-- Python set union `this_names.update(that_names)`. -/
def names_union (this that : List String) : List String :=
  this ++ that.filter (fun n => !(this.contains n))

/-- Python set equality (`that_names != this_names` is its negation). -/
def names_set_eq (a b : List String) : Bool :=
  a.all (fun x => b.contains x) && b.all (fun x => a.contains x)

/-- The inner loop of `_merge_subdomain_upstreams` over the subdomain's
upstreams of one repository already known to the parent
(db.py:610-626): known upstream repositories get their name sets
unioned; an unknown one makes `_subdomain_new_upstream` raise. -/
def merge_known_loop (cod : List (Label × String)) (domain orig : String)
    (other : MemDB) (tbl : List (String × List (String × List String))) :
    List (String × List String) → List (String × List String) →
      Except Database.Err (List (String × List String))
  | acc, [] => .ok acc
  | acc, (urepo, that_names) :: rest =>
    match alookup acc urepo with
    | some this_names =>
      let acc' := if names_set_eq that_names this_names then acc
                  else aupdate acc urepo (names_union this_names that_names)
      merge_known_loop cod domain orig other tbl acc' rest
    | none =>
      .error (subdomain_new_upstream
        { checkout_data := cod, upstream_repositories := aupdate tbl orig acc }
        domain orig other)

/-- The outer loop of `_merge_subdomain_upstreams` (db.py:602-652) over
the subdomain's upstream table. -/
def merge_upstream_items (cod : List (Label × String)) (domain : String)
    (other : MemDB) (already_got : List String) :
    List (String × List (String × List String)) →
      List (String × List (String × List String)) →
      Except Database.Err (List (String × List (String × List String)))
  | tbl, [] => .ok tbl
  | tbl, (orig, that_dict) :: rest =>
    match alookup tbl orig with
    | some this_dict =>
      match merge_known_loop cod domain orig other tbl this_dict that_dict with
      | .error e => .error e
      | .ok newd =>
        merge_upstream_items cod domain other already_got (aupdate tbl orig newd) rest
    | none =>
      if already_got.contains orig then
        .error (subdomain_new_upstream
          { checkout_data := cod, upstream_repositories := tbl } domain orig other)
      else
        merge_upstream_items cod domain other already_got (tbl ++ [(orig, that_dict)]) rest

/-- `Database._merge_subdomain_upstreams` (db.py:594). -/
def merge_subdomain_upstreams (self_ : MemDB) (domain : String) (other : MemDB) :
    Except Database.Err MemDB :=
  let already_got := self_.checkout_data.map Prod.snd
  match merge_upstream_items self_.checkout_data domain other already_got
      self_.upstream_repositories other.upstream_repositories with
  | .error e => .error e
  | .ok tbl => .ok { self_ with upstream_repositories := tbl }

/-- Does the embedded operation raise `GiveUp`? -/
def raisesGiveUp : Except Database.Err MemDB → Bool
  | .error (.giveUp _) => true
  | _ => false

/-! ### License bookkeeping (licenses.py) -/

/-- The license classes of licenses.py: `LicenseOpen`,
`LicenseProprietarySource`, `LicenseBinary`, `LicensePrivate`, and
`LicenseGPL` (with `LicenseLGPL` marked by the `lgpl` flag and the
linking exception by `with_exception`).  Each carries its name and
optional version. -/
inductive License where
  | openSrc (name : String) (version : Option String)
  | propSource (name : String) (version : Option String)
  | binary (name : String) (version : Option String)
  | priv (name : String) (version : Option String)
  | gpl (name : String) (version : Option String) (with_exception : Bool) (lgpl : Bool)
deriving DecidableEq

/-- `License.is_gpl` / `LicenseGPL.is_gpl`: true exactly for the GPL
classes (category `gpl`, which includes LGPL). -/
def License.is_gpl : License → Bool
  | .gpl _ _ _ _ => true
  | _ => false

/-- `License.propagates` / `LicenseGPL.propagates`: only a GPL license
without a linking exception propagates. -/
def License.propagates : License → Bool
  | .gpl _ _ we _ => !we
  | _ => false

/-- Modelled from the spec: `normalise_checkout_label` of
`muddled/depend.py` (not among the sources) — checkout data is keyed
"per checkout label (tag-normalised to `*`)". -/
def normalise_checkout_label (l : Label) : Label :=
  l.copy_with_tag "*"

/-- The builder context that `get_implicit_gpl_checkouts` consults.
`required_by` (muddled/depend.py) and `checkouts_for_package` (the
Builder) are not among the sources; modelled from the spec:
`required_by(label)` is the set of labels that transitively depend on
`label`, and `checkouts_for_package` the checkouts a package is built
from.  Per the code's comments, `all_checkout_labels` holds checkout
labels with a wildcarded tag. -/
structure Builder where
  all_checkout_labels : List Label
  checkout_licenses : List (Label × License)
  license_not_affected_by : List (Label × List Label)
  nothing_builds_against : List Label
  required_by : Label → List Label
  checkouts_for_package : Label → List Label

/-- `Database.get_checkout_license(co, absent_is_None=True)`
(db.py:987): look the tag-normalised label up in the licenses
dictionary (Python dict keys compare by `Label.__eq__`). -/
def get_checkout_license_opt (b : Builder) (l : Label) : Option License :=
  (b.checkout_licenses.find?
    (fun p => p.1.sameIdent (normalise_checkout_label l))).map Prod.snd

/-- `Database.get_license_not_affected_by` (db.py:1082): keyed by the
label with tag forced to `*`; absent keys give the empty set. -/
def get_license_not_affected_by (b : Builder) (l : Label) : List Label :=
  let key := if l.tag = "*" then l else l.copy_with_tag "*"
  ((b.license_not_affected_by.find? (fun p => p.1.sameIdent key)).map Prod.snd).getD []

/-- `Database.get_nothing_builds_against` (db.py:1109). -/
def get_nothing_builds_against (b : Builder) (l : Label) : Bool :=
  b.nothing_builds_against.any (fun x => x.sameIdent (normalise_checkout_label l))

/-- `get_gpl_checkouts` (licenses.py:553): all checkouts whose
registered license is some sort of GPL. -/
def get_gpl_checkouts (b : Builder) : List Label :=
  b.all_checkout_labels.filter (fun co =>
    match get_checkout_license_opt b co with
    | some lic => lic.is_gpl
    | none => false)

/-- The `because` map: each implicated label keeps the set of reasons
for its inclusion.  The Python reason string `"X depends on Y"` is
represented by the pair `(X, Y)`. -/
def becauseAdd (because : List (Label × List (Label × Label))) (lbl : Label)
    (reason : Label × Label) : List (Label × List (Label × Label)) :=
  if because.any (fun p => p.1.sameIdent lbl) then
    because.map (fun p =>
      if p.1.sameIdent lbl then
        (p.1, if p.2.contains reason then p.2 else reason :: p.2)
      else p)
  else (lbl, [reason]) :: because

/-- `add_if_not_us_or_gpl` (licenses.py:641): skip a variant of the
originating checkout (`just_match`, i.e. identity-field equality) and
anything itself GPL-licensed; otherwise add the label with tag `*` to
the result set (Python set add, `Label.__eq__`). -/
def add_if_not_us_or_gpl (b : Builder) (our_co this_co : Label)
    (acc : List Label × List (Label × List (Label × Label))) (reason : Label × Label) :
    List Label × List (Label × List (Label × Label)) :=
  if our_co.sameIdent this_co then acc
  else
    let isGpl := match get_checkout_license_opt b this_co with
      | some lic => lic.is_gpl
      | none => false
    if isGpl then acc
    else
      let lbl := this_co.copy_with_tag "*"
      let result := if acc.1.any (fun x => x.sameIdent lbl) then acc.1 else lbl :: acc.1
      (result, becauseAdd acc.2 lbl reason)

/-- The body of the inner loop of `get_implicit_gpl_checkouts`
(licenses.py:678-713) over one label depending on the GPL checkout
`co`: package labels are filtered through `license_not_affected_by` and
expanded to their checkouts, each again so filtered; checkout labels
are added directly; anything else is ignored. -/
def implicit_step (b : Builder) (co : Label)
    (acc : List Label × List (Label × List (Label × Label))) (this_label : Label) :
    List Label × List (Label × List (Label × Label)) :=
  if this_label.type = "package" then
    if (get_license_not_affected_by b this_label).any (fun x => x.sameIdent co) then acc
    else
      (b.checkouts_for_package this_label).foldl (fun acc this_co =>
        if (get_license_not_affected_by b this_co).any (fun x => x.sameIdent co) then acc
        else add_if_not_us_or_gpl b co this_co acc (this_label.copy_with_tag "*", co)) acc
  else if this_label.type = "checkout" then
    add_if_not_us_or_gpl b co this_label acc (this_label.copy_with_tag "*", co)
  else acc

/-- The outer loop of `get_implicit_gpl_checkouts` (licenses.py:668)
over the GPL checkouts: non-propagating licenses and checkouts nothing
builds against are skipped; a GPL checkout with no registered license
would make `get_checkout_license` raise `GiveUp`. -/
def implicit_co_loop (b : Builder) :
    List Label → List Label × List (Label × List (Label × Label)) →
      Except Database.Err (List Label × List (Label × List (Label × Label)))
  | [], acc => .ok acc
  | co :: rest, acc =>
    match get_checkout_license_opt b co with
    | none => .error (.giveUp ("There is no license registered for label " ++ co.name))
    | some lic =>
      if !lic.propagates then implicit_co_loop b rest acc
      else if get_nothing_builds_against b co then implicit_co_loop b rest acc
      else implicit_co_loop b rest ((b.required_by co).foldl (implicit_step b co) acc)

/-- `get_implicit_gpl_checkouts` (licenses.py:595). -/
def get_implicit_gpl_checkouts (b : Builder) :
    Except Database.Err (List Label × List (Label × List (Label × Label))) :=
  implicit_co_loop b (get_gpl_checkouts b) ([], [])

/-! ### The substitution language (subst.py)

The pushback input stream is embedded functionally: a parser takes the
remaining input as a `List Char` and returns its result together with
the remaining input; "leaving the stream positioned at the end char"
means that character is still at the front of the returned list.  The
recursive-descent parser is given fuel (an embedding artifact;
`subst_str` supplies more than any input can consume, and the theorems
account for it exactly).  Line/character positions, which feed only the
wording of error messages, are not tracked; error messages are
otherwise those of the source. -/

/-- The opening curly bracket character. -/
def braceL : Char := '\x7b'

/-- The closing curly bracket character. -/
def braceR : Char := '\x7d'

/-- An XML document node as subst.py observes it: element nodes with
names and children, and text nodes with character data. -/
inductive XmlNode where
  | elem (name : String) (children : List XmlNode)
  | textNode (data : String)

/-- The children of an XML node. -/
def XmlNode.children : XmlNode → List XmlNode
  | .elem _ cs => cs
  | .textNode _ => []

/-- `get_text_in_xml_node` (subst.py:23): join the data of the direct
text children; then the source's peculiar trailing-newline strip,
`if result[:-1] == '\n': result = result[:-1]`, which fires only when
everything but the last character is exactly a newline. -/
def get_text_in_xml_node (n : XmlNode) : String :=
  let result := String.join (n.children.map (fun c =>
    match c with
    | .textNode d => d
    | .elem _ _ => ""))
  if result.dropRight 1 = "\n" then result.dropRight 1 else result

/-- `query_result` (subst.py:39): walk the keys, at each step taking
the first element child with the matching name. -/
def query_result : List String → XmlNode → Option XmlNode
  | [], n => some n
  | k :: ks, n =>
    match n.children.find? (fun c =>
      match c with
      | .elem nm _ => decide (nm = k)
      | .textNode _ => false) with
    | none => none
    | some c => query_result ks c

/-- `split_query` (subst.py:62): split on `/`, dropping the leading
empty component of an absolute path. -/
def split_query (q : String) : List String :=
  let result := q.splitOn "/"
  if result.head? = some "" then result.tail else result

/-- `query_string_value` (subst.py:74): the empty query is the empty
string; a query starting with `/` consults the XML document (`none`
when the document or the node is missing); anything else is an
environment variable, and an undefined one raises `GiveUp`. -/
def query_string_value (xml : Option XmlNode) (env : List (String × String))
    (k : String) : Except Database.Err (Option String) :=
  if k.length = 0 then .ok (some "")
  else if k.toList.head? = some '/' then
    match xml with
    | none => .ok none
    | some doc =>
      match query_result (split_query k) doc with
      | none => .ok none
      | some node => .ok (some (get_text_in_xml_node node))
  else
    match alookup env k with
    | some v => .ok (some v)
    | none => .error (.giveUp ("Environment variable '" ++ k ++ "' not defined."))

/-- `TreeNode` (subst.py:181): string leaves, containers, value
instructions and function instructions (`set_fn` appends the trailing
document as the single child, kept here as `rest`).  String nodes
built by the parser never carry children. -/
inductive TreeNode where
  | strNode (s : String)
  | container (children : List TreeNode)
  | instrVal (expr : TreeNode)
  | instrFn (fn : String) (params : List TreeNode) (rest : TreeNode)

/-- Python `str.strip()` whitespace. -/
def py_ws (c : Char) : Bool :=
  c = ' ' || c = '\t' || c = '\n' || c = '\r' || c = '\x0b' || c = '\x0c'

/-- Python `str.strip()`. -/
def py_strip (s : String) : String :=
  String.mk (((s.toList.dropWhile py_ws).reverse.dropWhile py_ws).reverse)

mutual

/-- `TreeNode.eval` (subst.py:259) together with `val`, `fnval`,
`ifeq` and `echo`: evaluation to the concatenated output, with
`GiveUp` for a key that does not exist, wrong parameter counts, or an
undefined environment variable (via `query_string_value`).  A function
instruction with an unknown name evaluates to nothing. -/
def TreeNode.eval (xml : Option XmlNode) (env : List (String × String)) :
    TreeNode → Except Database.Err String
  | .strNode s => .ok s
  | .container cs => TreeNode.evalList xml env cs
  | .instrVal expr =>
    match TreeNode.eval xml env expr with
    | .error e => .error e
    | .ok key0 =>
      let key := py_strip key0
      match query_string_value xml env key with
      | .error e => .error e
      | .ok none =>
        .error (.giveUp ("Attempt to substitute key '" ++ key ++ "' which does not exist."))
      | .ok (some v) => .ok v
  | .instrFn fn params rest =>
    if fn = "val" then
      match params with
      | [p] =>
        match TreeNode.eval xml env p with
        | .error e => .error e
        | .ok key0 =>
          let key := py_strip key0
          match query_string_value xml env key with
          | .error e => .error e
          | .ok none =>
            .error (.giveUp ("Attempt to substitute key '" ++ key ++ "' which does not exist."))
          | .ok (some v) => .ok v
      | _ => .error (.giveUp "val() must have exactly one parameter")
    else if fn = "ifeq" || fn = "ifneq" then
      match params with
      | [p0, p1] =>
        match TreeNode.eval xml env p0 with
        | .error e => .error e
        | .ok key0 =>
          let key := py_strip key0
          match TreeNode.eval xml env p1 with
          | .error e => .error e
          | .ok value =>
            match query_string_value xml env key with
            | .error e => .error e
            | .ok kvOpt =>
              let eqB := match kvOpt.map py_strip with
                | some kv => decide (kv = value)
                | none => false
              if fn = "ifeq" then
                (if eqB then TreeNode.eval xml env rest else .ok "")
              else
                (if !eqB then TreeNode.eval xml env rest else .ok "")
      | _ => .error (.giveUp "ifeq() must have two parameters")
    else if fn = "echo" then
      TreeNode.evalList xml env params
    else
      .ok ""

/-- Evaluate a list of children in order, concatenating output (the
`output_list` of the source). -/
def TreeNode.evalList (xml : Option XmlNode) (env : List (String × String)) :
    List TreeNode → Except Database.Err String
  | [] => .ok ""
  | c :: cs =>
    match TreeNode.eval xml env c with
    | .error e => .error e
    | .ok s =>
      match TreeNode.evalList xml env cs with
      | .error e => .error e
      | .ok t => .ok (s ++ t)

end

mutual

/-- `flatten_literal_node` (subst.py:484): strings and containers
flatten to their text; any instruction raises `GiveUp`. -/
def flatten_literal_node : TreeNode → Except Database.Err String
  | .strNode s => .ok s
  | .container cs => flatten_literal_list cs
  | .instrVal _ => .error (.giveUp "Non literal where literal expected.")
  | .instrFn _ _ _ => .error (.giveUp "Non literal where literal expected.")

/-- Flatten the children of a literal node. -/
def flatten_literal_list : List TreeNode → Except Database.Err String
  | [] => .ok ""
  | c :: cs =>
    match flatten_literal_node c with
    | .error e => .error e
    | .ok s =>
      match flatten_literal_list cs with
      | .error e => .error e
      | .ok t => .ok (s ++ t)

end

/-- `skip_whitespace` (subst.py:473): consume the exact four whitespace
characters the source skips. -/
def skip_whitespace (s : List Char) : List Char :=
  s.dropWhile (fun c => c = ' ' || c = '\r' || c = '\t' || c = '\n')

mutual

/-- `parse_document` (subst.py:365): the state machine over the input
(0 text, 1 after `$`, 2 after `$$`, 3 after `\`), accumulating the
current string in `cur` and finished child nodes in `acc`; an end
character (checked only in state 0) or end of input closes the current
string node; end of input while an end character is required is a
syntax error; `${` hands over to `parse_instruction` and then consumes
the closing brace. -/
def parse_document : Nat → List Char → Option (List Char) → Bool → Nat →
    List Char → List TreeNode → Except Database.Err (List TreeNode × List Char)
  | 0, _, _, _, _, _, _ => .error (.giveUp "parser fuel exhausted")
  | f + 1, stream, endChars, hasEsc, state, cur, acc =>
    match stream with
    | [] =>
      match endChars with
      | some _ =>
        .error (.giveUp "Syntax Error: Input text ends whilst waiting for end char")
      | none => .ok (acc ++ [.strNode (String.mk cur)], [])
    | c :: rest =>
      if state = 0 &&
          (match endChars with
           | some ecs => ecs.contains c
           | none => false) then
        .ok (acc ++ [.strNode (String.mk cur)], c :: rest)
      else if state = 0 then
        if c = '$' then parse_document f rest endChars hasEsc 1 cur acc
        else if c = '\\' && hasEsc then parse_document f rest endChars hasEsc 3 cur acc
        else parse_document f rest endChars hasEsc 0 (cur ++ [c]) acc
      else if state = 1 then
        if c = '$' then parse_document f rest endChars hasEsc 2 cur acc
        else if c = braceL then
          match parse_instruction f rest with
          | .error e => .error e
          | .ok (node, rest2) =>
            match rest2 with
            | brc :: rest3 =>
              if brc = braceR then
                parse_document f rest3 endChars hasEsc 0 []
                  (acc ++ [.strNode (String.mk cur), node])
              else .error (.giveUp "Instruction did not end with a close brace")
            | [] => .error (.giveUp "Instruction did not end with a close brace")
        else parse_document f rest endChars hasEsc 0 (cur ++ ['$', c]) acc
      else if state = 2 then
        if c = braceL then
          parse_document f rest endChars hasEsc 0 (cur ++ ['$', braceL]) acc
        else
          parse_document f rest endChars hasEsc 0 (cur ++ ['$', '$', c]) acc
      else
        parse_document f rest endChars hasEsc 0 (cur ++ [c]) acc

/-- `parse_instruction` (subst.py:543): a quoted literal becomes a
value instruction (with the closing brace pushed back); otherwise the
text before `:` or the closing brace either names a directive (only
`fn:` is valid) or is itself the value expression. -/
def parse_instruction : Nat → List Char →
    Except Database.Err (TreeNode × List Char)
  | 0, _ => .error (.giveUp "parser fuel exhausted")
  | f + 1, stream =>
    let s := skip_whitespace stream
    if s.head? = some '"' then
      match parse_document f (skip_whitespace s.tail) (some ['"']) true 0 [] [] with
      | .error e => .error e
      | .ok (children, rest) =>
        match rest with
        | '"' :: rest2 =>
          match skip_whitespace rest2 with
          | c :: rest4 =>
            if c = braceR then
              .ok (.instrVal (.container children), c :: rest4)
            else
              .error (.giveUp "Syntax Error - no end to literal instruction")
          | [] => .error (.giveUp "Syntax Error - no end to literal instruction")
        | _ => .error (.giveUp "Literal instruction never ends")
    else
      match parse_document f s (some [':', braceR]) true 0 [] [] with
      | .error e => .error e
      | .ok (dchildren, rest) =>
        match rest with
        | c :: rest2 =>
          if c = ':' then
            match flatten_literal_node (.container dchildren) with
            | .error e => .error e
            | .ok strv =>
              if strv = "fn" then
                match parse_literal f rest2 ['(', braceR] with
                | .error e => .error e
                | .ok (fn_name, rest3) =>
                  match rest3 with
                  | c2 :: rest4 =>
                    if c2 = '(' then
                      match parse_fn_params f rest4 [] with
                      | .error e => .error e
                      | .ok (params, rest5) =>
                        match parse_document f rest5 (some [braceR]) true 0 [] [] with
                        | .error e => .error e
                        | .ok (restChildren, rest6) =>
                          .ok (.instrFn fn_name params (.container restChildren), rest6)
                    else
                      match parse_document f rest4 (some [braceR]) true 0 [] [] with
                      | .error e => .error e
                      | .ok (restChildren, rest6) =>
                        .ok (.instrFn fn_name [] (.container restChildren), rest6)
                  | [] =>
                    match parse_document f [] (some [braceR]) true 0 [] [] with
                    | .error e => .error e
                    | .ok (restChildren, rest6) =>
                      .ok (.instrFn fn_name [] (.container restChildren), rest6)
              else
                .error (.giveUp ("Invalid designator in value: " ++ strv))
          else
            .ok (.instrVal (.container dchildren), c :: rest2)
        | [] => .error (.giveUp "Syntax Error")

/-- The parameter loop of `parse_instruction` (subst.py:616-623): parse
parameters until the separator read after one is not a comma. -/
def parse_fn_params : Nat → List Char → List TreeNode →
    Except Database.Err (List TreeNode × List Char)
  | 0, _, _ => .error (.giveUp "parser fuel exhausted")
  | f + 1, stream, acc =>
    match parse_param f stream [',', ')'] with
    | .error e => .error e
    | .ok (nodes, rest) =>
      match rest with
      | c :: rest2 =>
        if c = ',' then parse_fn_params f rest2 (acc ++ [.container nodes])
        else .ok (acc ++ [.container nodes], rest2)
      | [] => .ok (acc ++ [.container nodes], [])

/-- `parse_param` (subst.py:516): a quoted parameter must be followed
(after whitespace) by one of the end characters, which is left
unconsumed; an unquoted one is a document ending at the end
characters. -/
def parse_param : Nat → List Char → List Char →
    Except Database.Err (List TreeNode × List Char)
  | 0, _, _ => .error (.giveUp "parser fuel exhausted")
  | f + 1, stream, echars =>
    let s := skip_whitespace stream
    if s.head? = some '"' then
      match parse_document f s.tail (some ['"']) true 0 [] [] with
      | .error e => .error e
      | .ok (nodes, rest) =>
        match rest with
        | '"' :: rest2 =>
          match skip_whitespace rest2 with
          | c :: rest3 =>
            if echars.contains c then .ok (nodes, c :: rest3)
            else .error (.giveUp "Quoted parameter ends with invalid character")
          | [] => .error (.giveUp "Quoted parameter ends with invalid character")
        | _ => .error (.giveUp "Quoted parameter did not end with a quote")
    else
      match parse_document f s (some echars) true 0 [] [] with
      | .error e => .error e
      | .ok (nodes, rest) => .ok (nodes, rest)

/-- `parse_literal` (subst.py:507): parse a document up to the end
characters and flatten it. -/
def parse_literal : Nat → List Char → List Char →
    Except Database.Err (String × List Char)
  | 0, _, _ => .error (.giveUp "parser fuel exhausted")
  | f + 1, stream, echars =>
    match parse_document f stream (some echars) true 0 [] [] with
    | .error e => .error e
    | .ok (nodes, rest) =>
      match flatten_literal_node (.container nodes) with
      | .error e => .error e
      | .ok s => .ok (s, rest)

end

/-- `subst_str` (subst.py:643): parse the whole input (no end
characters, escapes off at top level) and evaluate the resulting
children against the XML document and the environment.  The fuel is an
embedding artifact and exceeds what any input can consume. -/
def subst_str (in_str : String) (xml : Option XmlNode)
    (env : List (String × String)) : Except Database.Err String :=
  match parse_document (2 * in_str.length + 8) in_str.toList none false 0 [] [] with
  | .error e => .error e
  | .ok (nodes, _) => TreeNode.evalList xml env nodes

/-- A character that the top-level document scanner (no end characters,
escapes off) treats as plain text: anything but `$`. -/
def plain_text_char (c : Char) : Bool :=
  !(c = '$')

/-- A character of an ordinary `${KEY}` key: nothing that the
instruction parser treats specially (`$`, backslash, `:`, the braces,
the quote) and no whitespace (so `str.strip` leaves the key alone and
`skip_whitespace` cannot eat its head). -/
def plain_key_char (c : Char) : Bool :=
  !(c = '$' || c = '\\' || c = ':' || c = braceL || c = braceR || c = '"' ||
    c = ' ' || c = '\r' || c = '\t' || c = '\n' || c = '\x0b' || c = '\x0c')

/-- How `add_if_not_us_or_gpl` can have added `lbl` while walking from
the GPL checkout `co` through the dependent checkout `tc`: `tc` is not
a variant of `co` (`just_match` fails), its own license is not GPL, and
`lbl` is `tc` with tag `*`. -/
def added_via (b : Builder) (co tc lbl : Label) : Prop :=
  co.sameIdent tc = false ∧
  (∀ lic, get_checkout_license_opt b tc = some lic → lic.is_gpl = false) ∧
  lbl = tc.copy_with_tag "*"

/-- How one label `t` out of `required_by co` can have contributed
`lbl`: through a package label (with the `license_not_affected_by`
check passing for the package and for the expanded checkout), or
directly as a checkout label (for which the code performs no
`license_not_affected_by` check). -/
def step_witness (b : Builder) (co t lbl : Label) : Prop :=
  (t.type = "package" ∧
     (get_license_not_affected_by b t).any (fun x => x.sameIdent co) = false ∧
     ∃ tc, tc ∈ b.checkouts_for_package t ∧
       (get_license_not_affected_by b tc).any (fun x => x.sameIdent co) = false ∧
       added_via b co tc lbl) ∨
  (t.type = "checkout" ∧ added_via b co t lbl)

/-- How a GPL checkout `co` can be the origin of `lbl`'s inclusion:
its license propagates, nothing-builds-against does not exempt it, and
some label depending on it contributes `lbl`. -/
def origin_witness (b : Builder) (co lbl : Label) : Prop :=
  (∃ lic, get_checkout_license_opt b co = some lic ∧ lic.propagates = true) ∧
  get_nothing_builds_against b co = false ∧
  ∃ t, t ∈ b.required_by co ∧ step_witness b co t lbl

/-! ### Concrete instances used by witnesses and counterexamples -/

/-- A GPL-licensed checkout label (tag-normalised). -/
def c8A : Label :=
  { type := "checkout", name := "a", role := none, tag := "*",
    domain := none, transient := false, system := false }

/-- A checkout label depending on `c8A`, with an open license and a
recorded `license_not_affected_by` entry against `c8A`. -/
def c8X : Label := { c8A with name := "x", tag := "checked_out" }

/-- A builder in which `c8X` is reached from the GPL checkout `c8A`
only directly as a checkout label, and the pair is recorded in
`license_not_affected_by`. -/
def c8B : Builder :=
  { all_checkout_labels := [c8A, c8X],
    checkout_licenses :=
      [(c8A, .gpl "GPL" none false false),
       (normalise_checkout_label c8X, .openSrc "MIT" none)],
    license_not_affected_by := [(normalise_checkout_label c8X, [c8A])],
    nothing_builds_against := [],
    required_by := fun l => if l.sameIdent c8A then [c8X] else [],
    checkouts_for_package := fun _ => [] }

/-- A checkout label for the upstream-merge scenario. -/
def c7CoLabel : Label :=
  { type := "checkout", name := "co", role := none, tag := "*",
    domain := none, transient := false, system := false }

/-- A parent build with a checkout using repository `R` but no recorded
upstreams for it. -/
def c7ParentNoUp : MemDB :=
  { checkout_data := [(c7CoLabel, "R")], upstream_repositories := [] }

/-- A subdomain adding an upstream `U` for repository `R`. -/
def c7Sub : MemDB :=
  { checkout_data := [], upstream_repositories := [("R", [("U", ["up1"])])] }

/-- A parent build that already records an upstream `U0` for `R`. -/
def c7ParentUp : MemDB :=
  { checkout_data := [(c7CoLabel, "R")],
    upstream_repositories := [("R", [("U0", ["a"])])] }

/-- A subdomain adding a different upstream `U1` for `R`. -/
def c7SubNew : MemDB :=
  { checkout_data := [], upstream_repositories := [("R", [("U1", ["b"])])] }

/-- A definite non-transient package label. -/
def pkgLabel : Label :=
  { type := "package", name := "pkg", role := some "r", tag := "built",
    domain := none, transient := false, system := false }

/-- A transient label. -/
def transLabel : Label :=
  { type := "package", name := "pkg", role := some "r", tag := "runtime_env",
    domain := none, transient := true, system := false }

/-- A plain empty database for one process. -/
def emptyDb : Database :=
  { store := { root := { rules := [], labels := [], rules_to_labels := [],
                         labels_to_rules := [], rules_to_build := [], processes := [] },
               domain_labels := [] },
    local_tags := [], local_rules := [], pid := 1, uuid := 10 }

/-- A rule with the non-transient package target and no deps. -/
def pkgRule : Rule := { target := pkgLabel, deps := [], req_master := false }

/-- A clear `rules` row for `pkgRule`. -/
def pkgRowClear : RuleRow :=
  { target := pkgLabel, transient := false, pickle := pkgRule, req_master := false,
    owner_pid := none, status := Database.CLEAR, owner_uuid := none }

/-- The same row already claimed by process (pid 1, uuid 10). -/
def pkgRowOwned : RuleRow :=
  { pkgRowClear with
    status := Database.PROCESSING,
    owner_pid := some 1, owner_uuid := some 10 }

/-- A database whose rules table holds the clear row. -/
def dbRuleClear : Database :=
  { emptyDb with store := { emptyDb.store with root :=
      { emptyDb.store.root with rules := [pkgRowClear] } } }

/-- A database whose rules table holds the row already owned by the
calling process itself. -/
def dbRuleOwned : Database :=
  { emptyDb with store := { emptyDb.store with root :=
      { emptyDb.store.root with rules := [pkgRowOwned] } } }

/-- A processes table with two workers, the first already master. -/
def twoProcs : List ProcRow :=
  [ { master := true, pid := 1, uuid := 10, pause_requested_by := none, paused := false },
    { master := false, pid := 2, uuid := 20, pause_requested_by := none, paused := false } ]

/-- A database for the second worker with a master already present. -/
def dbWithMaster : Database :=
  { emptyDb with
    pid := 2, uuid := 20,
    store := { emptyDb.store with root := { emptyDb.store.root with processes := twoProcs } } }

/-- A database in which `pkgRule` sits clear on the build frontier with
no dependencies recorded, so the scheduler can pick it. -/
def dbFrontier : Database :=
  { emptyDb with store := { emptyDb.store with root :=
      { emptyDb.store.root with
          rules := [pkgRowClear],
          rules_to_build := [(pkgLabel, false)] } } }

/-- A wildcard variant of `pkgLabel` (name `*`). -/
def wildLabel : Label := { pkgLabel with name := "*" }

/-- A rule whose target is the wildcard label. -/
def wildRule : Rule := { target := wildLabel, deps := [], req_master := false }

/-- The wildcard rule's row, claimed and being processed. -/
def wildRow : RuleRow :=
  { target := wildLabel, transient := false, pickle := wildRule, req_master := false,
    owner_pid := some 1, status := Database.PROCESSING, owner_uuid := some 10 }

/-- The exact-match rule's row for `pkgLabel`, already done. -/
def exactRowDone : RuleRow :=
  { target := pkgLabel, transient := false, pickle := pkgRule, req_master := false,
    owner_pid := none, status := Database.DONE, owner_uuid := none }

/-- A database in which `pkgLabel` is realised by the wildcard rule
(being processed) and its exact rule (already done), wired up in
`labels_to_rules`. -/
def dbWild : Database :=
  { emptyDb with store := { emptyDb.store with root :=
      { emptyDb.store.root with
          rules := [wildRow, exactRowDone],
          labels_to_rules := [(pkgLabel, wildLabel), (pkgLabel, pkgLabel)],
          rules_to_build := [(wildLabel, false)] } } }

/-- The per-row effect that C1 attributes to a successful claim: set
`status=PROCESSING` and both owner columns on the row for this target. -/
def claim_update (db : Database) (rule : Rule) (r : RuleRow) : RuleRow :=
  if r.target = rule.target.stored then
    { r with status := Database.PROCESSING,
             owner_pid := some db.pid, owner_uuid := some db.uuid }
  else r

/-! ### Helper lemmas -/

theorem Label.sameIdent_refl (l : Label) : l.sameIdent l = true := by
  simp [Label.sameIdent]

/-- In a list pairwise-distinct on a key, two members with the same key
are the same element. -/
theorem eq_of_pairwise_key {α κ : Type _} (key : α → κ) {l : List α}
    (hp : l.Pairwise fun a b => key a ≠ key b) {a b : α}
    (ha : a ∈ l) (hb : b ∈ l) (hk : key a = key b) : a = b := by
  induction l with
  | nil => cases ha
  | cons x t ih =>
    rcases List.pairwise_cons.mp hp with ⟨hx, ht⟩
    rcases List.mem_cons.mp ha with rfl | ha'
    · rcases List.mem_cons.mp hb with rfl | hb'
      · rfl
      · exact absurd hk (hx _ hb')
    · rcases List.mem_cons.mp hb with rfl | hb'
      · exact absurd hk.symm (hx _ ha')
      · exact ih ht ha' hb'

/-- In a list pairwise-distinct on a key, a predicate that entails a
fixed key value holds for at most one entry. -/
theorem countP_le_one_of_key {α κ : Type _} (key : α → κ) {l : List α}
    (hp : l.Pairwise fun a b => key a ≠ key b) (u : κ) (q : α → Bool)
    (hq : ∀ a, q a = true → key a = u) : l.countP q ≤ 1 := by
  induction l with
  | nil => simp
  | cons x t ih =>
    rcases List.pairwise_cons.mp hp with ⟨hx, ht⟩
    by_cases hqx : q x = true
    · rw [List.countP_cons_of_pos _ _ hqx]
      have hz : t.countP q = 0 := by
        rw [List.countP_eq_zero]
        intro a ha hqa
        exact hx a ha ((hq x hqx).trans (hq a hqa).symm)
      omega
    · rw [List.countP_cons_of_neg _ _ hqx]
      exact ih ht

/-! ### C2: transient labels stay out of persistent storage -/

/-- C2: for a transient label, `set_tag` changes only the process-local
transient set and leaves the persistent store (hence the labels table of
every domain) unchanged, and `is_tag_done` reads only the local set; so
`set_tag` never records a transient label as done in any `labels`
table. -/
theorem transient_tag_local_only (db : Database) (l : Label)
    (ht : l.transient = true) :
    (db.set_tag l).store = db.store ∧
    (db.set_tag l).local_tags =
      (if db.local_tags.any (fun t => t.sameIdent l) then db.local_tags
       else l :: db.local_tags) ∧
    (∀ db₁ db₂ : Database, db₁.local_tags = db₂.local_tags →
      db₁.is_tag_done l = db₂.is_tag_done l) ∧
    (db.set_tag l).is_tag_done l = true := by
  refine ⟨?_, ?_, ?_, ?_⟩
  · simp only [Database.set_tag, ht, if_true]
    split <;> rfl
  · simp only [Database.set_tag, ht, if_true]
    split <;> simp_all
  · intro db₁ db₂ h
    simp [Database.is_tag_done, ht, h]
  · simp only [Database.set_tag, Database.is_tag_done, ht, if_true]
    by_cases h : db.local_tags.any (fun t => t.sameIdent l) = true
    · simp [h]
    · simp [h, Label.sameIdent_refl]

/-- C2 witness. -/
theorem transient_tag_local_only_witness :
    transLabel.transient = true ∧
    (emptyDb.set_tag transLabel).store = emptyDb.store ∧
    (emptyDb.set_tag transLabel).is_tag_done transLabel = true := by
  have h := transient_tag_local_only emptyDb transLabel (by decide)
  exact ⟨by decide, h.1, h.2.2.2⟩

/-- When a master row already exists, `attempt_set_master` is the
identity on the whole database state. -/
theorem attempt_set_master_of_master (db : Database)
    (h : db.store.root.processes.any (fun r => r.master) = true) :
    db.attempt_set_master = db := by
  unfold Database.attempt_set_master
  simp [h]

/-! ### C10: attempt_set_master with an existing master is a silent no-op -/

/-- C10: when some row already has `master=1`, `attempt_set_master`
leaves the processes table (indeed the whole state) unchanged; the
embedded operation is total, returning normally with no result, so the
caller gets no indication and can only consult `is_master`. -/
theorem attempt_set_master_silent_noop (db : Database)
    (h : db.store.root.processes.any (fun r => r.master) = true) :
    db.attempt_set_master = db ∧
    (db.attempt_set_master).is_master = db.is_master := by
  have h1 := attempt_set_master_of_master db h
  exact ⟨h1, by rw [h1]⟩

/-- C10 witness. -/
theorem attempt_set_master_silent_noop_witness :
    dbWithMaster.store.root.processes.any (fun r => r.master) = true ∧
    dbWithMaster.attempt_set_master = dbWithMaster := by
  exact ⟨by decide, (attempt_set_master_silent_noop dbWithMaster (by decide)).1⟩

/-! ### C4: at most one master; pause requests are master-only -/

/-- C4: with uuids unique (the `processes` primary key) and at most one
master row, `attempt_set_master` preserves "at most one master row"
(it promotes the caller only when no master row exists), and both
`request_pause_others` and `release_pause_request` raise `MuddleBug`
when the caller is not the master. -/
theorem at_most_one_master (db : Database)
    (hpw : db.store.root.processes.Pairwise fun a b => a.uuid ≠ b.uuid)
    (hle : db.store.root.processes.countP (fun r => r.master) ≤ 1) :
    (db.attempt_set_master).store.root.processes.countP (fun r => r.master) ≤ 1 ∧
    (db.is_master = false →
      db.request_pause_others =
        .error (.muddleBug "requested pause whilst not being master")) ∧
    (db.is_master = false →
      db.release_pause_request =
        .error (.muddleBug "requested pause release whilst not being master")) := by
  refine ⟨?_, ?_, ?_⟩
  · by_cases hM : db.store.root.processes.any (fun r => r.master) = true
    · rw [attempt_set_master_of_master db hM]
      exact hle
    · have hall : ∀ r ∈ db.store.root.processes, r.master = false := by
        intro r hr
        by_contra hc
        exact hM (List.any_eq_true.mpr ⟨r, hr, by simpa using hc⟩)
      unfold Database.attempt_set_master
      rw [Bool.not_eq_true] at hM
      simp only [hM, Bool.not_false, Bool.and_true, List.countP_map]
      have hcg : List.countP
          ((fun r => r.master) ∘ fun r =>
            if decide (r.pid = db.pid) && decide (r.uuid = db.uuid) then
              { r with master := true } else r)
          db.store.root.processes =
          List.countP (fun r => decide (r.pid = db.pid) && decide (r.uuid = db.uuid))
          db.store.root.processes := by
        apply List.countP_congr
        intro r hr
        by_cases hc : (decide (r.pid = db.pid) && decide (r.uuid = db.uuid)) = true
        · simp [Function.comp, hc]
        · simp only [Function.comp, hc]
          rw [Bool.not_eq_true] at hc
          simp [hc, hall r hr]
      rw [hcg]
      exact countP_le_one_of_key (fun r => r.uuid) hpw db.uuid _
        (fun a ha => by
          have := (Bool.and_eq_true _ _).mp ha
          exact of_decide_eq_true this.2)
  · intro h
    simp [Database.request_pause_others, h]
  · intro h
    simp [Database.release_pause_request, h]

/-- C4 witness. -/
theorem at_most_one_master_witness :
    (dbWithMaster.attempt_set_master).store.root.processes.countP
      (fun r => r.master) ≤ 1 ∧
    dbWithMaster.request_pause_others =
      .error (.muddleBug "requested pause whilst not being master") := by
  have h := at_most_one_master dbWithMaster (by decide) (by decide)
  exact ⟨h.1, h.2.1 (by decide)⟩

/-! ### C1 helper lemmas about set_rule_processing -/

theorem rp_snd_rules (db : Database) (rule : Rule) :
    (db.set_rule_processing rule).2.store.root.rules =
      db.store.root.rules.map (fun r =>
        if decide (r.target = rule.target.stored) && decide (r.status = Database.CLEAR) then
          { r with status := Database.PROCESSING,
                   owner_pid := some db.pid, owner_uuid := some db.uuid }
        else r) := rfl

theorem rp_fst (db : Database) (rule : Rule) :
    (db.set_rule_processing rule).1 =
      (db.set_rule_processing rule).2.store.root.rules.any (fun r =>
        decide (r.target = rule.target.stored) && decide (r.owner_uuid = some db.uuid) &&
          decide (r.owner_pid = some db.pid) && decide (r.status = Database.PROCESSING)) := rfl

/-- A clear row is claimed: the table undergoes exactly the per-target
`claim_update` and the call reports success. -/
theorem rp_of_clear (db : Database) (rule : Rule) (row : RuleRow)
    (hp : db.store.root.rules.Pairwise fun a b => a.target ≠ b.target)
    (hmem : row ∈ db.store.root.rules) (htgt : row.target = rule.target.stored)
    (hst : row.status = Database.CLEAR) :
    (db.set_rule_processing rule).1 = true ∧
    (db.set_rule_processing rule).2.store.root.rules =
      db.store.root.rules.map (claim_update db rule) := by
  have huniq : ∀ r ∈ db.store.root.rules, r.target = rule.target.stored → r = row :=
    fun r hr h => eq_of_pairwise_key (fun x => x.target) hp hr hmem (h.trans htgt.symm)
  have hmap : db.store.root.rules.map (fun r =>
      if decide (r.target = rule.target.stored) && decide (r.status = Database.CLEAR) then
        { r with status := Database.PROCESSING,
                 owner_pid := some db.pid, owner_uuid := some db.uuid }
      else r) = db.store.root.rules.map (claim_update db rule) := by
    apply List.map_congr_left
    intro r hr
    unfold claim_update
    by_cases hc : r.target = rule.target.stored
    · have : r = row := huniq r hr hc
      subst this
      simp [hc, hst]
    · simp [hc]
  constructor
  · rw [rp_fst, rp_snd_rules, hmap]
    apply List.any_eq_true.mpr
    refine ⟨claim_update db rule row, List.mem_map_of_mem _ hmem, ?_⟩
    unfold claim_update
    simp [htgt]
  · rw [rp_snd_rules, hmap]

/-- A row that is not clear is untouched, and the call reports success
exactly when the row already records this process as owner with status
`PROCESSING`. -/
theorem rp_of_not_clear (db : Database) (rule : Rule) (row : RuleRow)
    (hp : db.store.root.rules.Pairwise fun a b => a.target ≠ b.target)
    (hmem : row ∈ db.store.root.rules) (htgt : row.target = rule.target.stored)
    (hst : row.status ≠ Database.CLEAR) :
    (db.set_rule_processing rule).2.store.root.rules = db.store.root.rules ∧
    ((db.set_rule_processing rule).1 = true ↔
      row.status = Database.PROCESSING ∧ row.owner_pid = some db.pid ∧
        row.owner_uuid = some db.uuid) := by
  have huniq : ∀ r ∈ db.store.root.rules, r.target = rule.target.stored → r = row :=
    fun r hr h => eq_of_pairwise_key (fun x => x.target) hp hr hmem (h.trans htgt.symm)
  have hid : (db.set_rule_processing rule).2.store.root.rules = db.store.root.rules := by
    rw [rp_snd_rules]
    have : db.store.root.rules.map (fun r =>
        if decide (r.target = rule.target.stored) && decide (r.status = Database.CLEAR) then
          { r with status := Database.PROCESSING,
                   owner_pid := some db.pid, owner_uuid := some db.uuid }
        else r) = db.store.root.rules.map (fun r => r) := by
      apply List.map_congr_left
      intro r hr
      by_cases hc : r.target = rule.target.stored
      · have : r = row := huniq r hr hc
        subst this
        simp [hst]
      · simp [hc]
    rw [this, List.map_id']
  refine ⟨hid, ?_⟩
  rw [rp_fst, hid]
  constructor
  · intro h
    rcases List.any_eq_true.mp h with ⟨r, hr, hcond⟩
    simp only [Bool.and_eq_true, decide_eq_true_eq] at hcond
    have : r = row := huniq r hr hcond.1.1.1
    subst this
    exact ⟨hcond.2, hcond.1.2, hcond.1.1.2⟩
  · intro ⟨h1, h2, h3⟩
    apply List.any_eq_true.mpr
    exact ⟨row, hmem, by simp [htgt, h1, h2, h3]⟩

/-! ### C1: claiming a rule (corrected) -/

/-- C1 counterexample: the claim says a call on a row whose status is
not clear returns false; but when the row is already `PROCESSING` and
owned by the calling process itself, the read-back still matches and
the call returns true. -/
theorem rule_claim_self_reclaim_returns_true :
    dbRuleOwned.store.root.rules = [pkgRowOwned] ∧
    pkgRowOwned.status ≠ Database.CLEAR ∧
    dbRuleOwned.pid = 1 ∧ dbRuleOwned.uuid = 10 ∧
    pkgRowOwned.owner_pid = some 1 ∧ pkgRowOwned.owner_uuid = some 10 ∧
    (dbRuleOwned.set_rule_processing pkgRule).1 = true := by
  refine ⟨rfl, by decide, rfl, rfl, rfl, rfl, by decide⟩

/-- C1 amended: claiming a rule whose unique row is clear updates that
row to `PROCESSING` with this process as owner and returns true; on a
row that is not clear the table is left unchanged and the call returns
true iff the row already records this very process as owner with
status `PROCESSING` (a repeated claim by the same process), and false
otherwise — in particular, of two processes with distinct uuids and no
prior claim on the row, exactly one claim returns true. -/
theorem rule_claim_atomic (db : Database) (rule : Rule) (row : RuleRow)
    (hp : db.store.root.rules.Pairwise fun a b => a.target ≠ b.target)
    (hmem : row ∈ db.store.root.rules) (htgt : row.target = rule.target.stored) :
    (row.status = Database.CLEAR →
      (db.set_rule_processing rule).1 = true ∧
      (db.set_rule_processing rule).2.store.root.rules =
        db.store.root.rules.map (claim_update db rule)) ∧
    (row.status ≠ Database.CLEAR →
      (db.set_rule_processing rule).2.store.root.rules = db.store.root.rules ∧
      ((db.set_rule_processing rule).1 = true ↔
        row.status = Database.PROCESSING ∧ row.owner_pid = some db.pid ∧
          row.owner_uuid = some db.uuid)) ∧
    (∀ B : Database, row.status = Database.CLEAR → B.uuid ≠ db.uuid →
      row.owner_uuid ≠ some db.uuid →
      (db.set_rule_processing rule).1 = true ∧
      (({ B with store := (db.set_rule_processing rule).2.store
        } : Database).set_rule_processing rule).1 = false) := by
  refine ⟨fun hst => rp_of_clear db rule row hp hmem htgt hst,
          fun hst => rp_of_not_clear db rule row hp hmem htgt hst, ?_⟩
  intro B hst hB _
  have hA := rp_of_clear db rule row hp hmem htgt hst
  refine ⟨hA.1, ?_⟩
  set dbB : Database := { B with store := (db.set_rule_processing rule).2.store } with hdbB
  have hrulesB : dbB.store.root.rules = db.store.root.rules.map (claim_update db rule) := hA.2
  have hrow2 : claim_update db rule row ∈ dbB.store.root.rules := by
    rw [hrulesB]
    exact List.mem_map_of_mem _ hmem
  have htgt2 : (claim_update db rule row).target = rule.target.stored := by
    unfold claim_update
    simp [htgt]
  have hcu_tgt : ∀ r : RuleRow, (claim_update db rule r).target = r.target := by
    intro r
    unfold claim_update
    split <;> rfl
  have hpw2 : dbB.store.root.rules.Pairwise fun a b => a.target ≠ b.target := by
    rw [hrulesB]
    refine List.Pairwise.map _ ?_ hp
    intro a b hab
    rw [hcu_tgt, hcu_tgt]
    exact hab
  have hst2 : (claim_update db rule row).status ≠ Database.CLEAR := by
    unfold claim_update
    simp [htgt]
    decide
  have h2 := rp_of_not_clear dbB rule (claim_update db rule row) hpw2 hrow2 htgt2 hst2
  have howner : (claim_update db rule row).owner_uuid = some db.uuid := by
    unfold claim_update
    simp [htgt]
  by_contra hc
  rw [Bool.not_eq_false] at hc
  have := (h2.2.mp hc).2.2
  rw [howner] at this
  exact hB (by injection this.symm)

/-- C1 witness for the amended theorem. -/
theorem rule_claim_atomic_witness :
    (dbRuleClear.set_rule_processing pkgRule).1 = true ∧
    (({ dbWithMaster with store := (dbRuleClear.set_rule_processing pkgRule).2.store
      } : Database).set_rule_processing pkgRule).1 = false := by
  have h := rule_claim_atomic dbRuleClear pkgRule pkgRowClear
    (by decide) (by decide) (by decide)
  exact h.2.2 dbWithMaster (by decide) (by decide) (by decide)

/-! ### C5 helper lemmas about set_rule_done -/

/-- `set_tag` touches only label state: the rules table, the build
frontier and the local rule set are unchanged. -/
theorem set_tag_frame (db : Database) (l : Label) :
    (db.set_tag l).store.root.rules = db.store.root.rules ∧
    (db.set_tag l).store.root.rules_to_build = db.store.root.rules_to_build ∧
    (db.set_tag l).local_rules = db.local_rules := by
  unfold Database.set_tag
  split
  · split <;> exact ⟨rfl, rfl, rfl⟩
  · unfold Store.setLabelsFor
    cases l.domain <;> exact ⟨rfl, rfl, rfl⟩

/-- The wildcard loop of `set_rule_done` only sets tags, so it leaves
the rules table, the build frontier and the local rule set alone. -/
theorem wild_loop_frame : ∀ (ps : List (Label × Label)) (db db₂ : Database),
    Database.set_rule_done_wild_loop db ps = .ok db₂ →
    db₂.store.root.rules = db.store.root.rules ∧
    db₂.store.root.rules_to_build = db.store.root.rules_to_build ∧
    db₂.local_rules = db.local_rules := by
  intro ps
  induction ps with
  | nil =>
    intro db db₂ h
    simp only [Database.set_rule_done_wild_loop] at h
    cases h
    exact ⟨rfl, rfl, rfl⟩
  | cons p rest ih =>
    intro db db₂ h
    simp only [Database.set_rule_done_wild_loop] at h
    by_cases hw : Database.label_wild_rules_done db p.1 = true
    · rw [if_pos hw] at h
      cases hle : Database.label_exact_rule_done db p.1 with
      | error e => rw [hle] at h; cases h
      | ok r =>
        rw [hle] at h
        have hr : r = none := by
          unfold Database.label_exact_rule_done at hle
          cases hfind : db.store.root.rules.find?
              (fun rr => decide (rr.target = Label.stored p.1)) with
          | none => rw [hfind] at hle; cases hle
          | some rr => rw [hfind] at hle; cases hle; rfl
        subst hr
        simp only [Option.getD_none, Bool.false_eq_true, if_false] at h
        exact ih db db₂ h
    · rw [if_neg hw] at h
      exact ih db db₂ h

/-- `rule_done_finish` only sets a tag and re-checks, so its successful
result keeps the rules table, the build frontier and the local rule
set, and `is_rule_done` holds on it. -/
theorem rule_done_finish_ok (db db' : Database) (rule : Rule)
    (h : Database.rule_done_finish db rule = .ok db') :
    db'.store.root.rules = db.store.root.rules ∧
    db'.store.root.rules_to_build = db.store.root.rules_to_build ∧
    db'.local_rules = db.local_rules ∧
    db'.is_rule_done rule = true := by
  simp only [Database.rule_done_finish] at h
  by_cases hc : (!rule.target.is_wildcard &&
      Database.label_wild_rules_done db rule.target) = true
  · rw [if_pos hc] at h
    by_cases hd : (db.set_tag rule.target).is_rule_done rule = true
    · rw [if_neg (by simp [hd])] at h
      have heq := Except.ok.inj h
      subst heq
      exact ⟨(set_tag_frame db rule.target).1, (set_tag_frame db rule.target).2.1,
        (set_tag_frame db rule.target).2.2, hd⟩
    · rw [if_pos (by simpa using hd)] at h
      cases h
  · rw [if_neg hc] at h
    by_cases hd : db.is_rule_done rule = true
    · rw [if_neg (by simp [hd])] at h
      have heq := Except.ok.inj h
      subst heq
      exact ⟨rfl, rfl, rfl, hd⟩
    · rw [if_pos (by simpa using hd)] at h
      cases h

theorem rule_done_base_rules (db : Database) (rule : Rule) :
    (Database.rule_done_base db rule).store.root.rules =
      db.store.root.rules.map (fun r =>
        if decide (r.target = rule.target.stored) then
          { r with status := if rule.target.transient then Database.CLEAR else Database.DONE,
                   owner_pid := none, owner_uuid := none }
        else r) := rfl

theorem rule_done_base_rtb (db : Database) (rule : Rule)
    (htr : rule.target.transient = false) :
    (Database.rule_done_base db rule).store.root.rules_to_build =
      db.store.root.rules_to_build.filter
        (fun p => !(decide (p.1 = rule.target.stored))) := by
  simp only [Database.rule_done_base, htr]
  rfl

theorem rule_done_base_local (db : Database) (rule : Rule)
    (htr : rule.target.transient = true) :
    (Database.rule_done_base db rule).local_rules =
      (if db.local_rules.contains rule then db.local_rules
       else rule :: db.local_rules) := by
  simp [Database.rule_done_base, htr]

/-! ### C5: completing a rule -/

/-- C5: when `set_rule_done(r)` completes normally on a database whose
rules table has a row for `r.target`, then: for a non-transient target
that row is now `DONE` and `r.target` is gone from `rules_to_build`;
for a transient target the row is reset to `CLEAR` and the rule is in
the caller's local done set; and in both cases `is_rule_done(r)` holds
on the resulting state. -/
theorem rule_done_spec (db : Database) (rule : Rule) (row : RuleRow) (db' : Database)
    (hmem : row ∈ db.store.root.rules) (htgt : row.target = rule.target.stored)
    (hok : db.set_rule_done rule = .ok db') :
    (rule.target.transient = false →
       (∃ row' ∈ db'.store.root.rules,
          row'.target = rule.target.stored ∧ row'.status = Database.DONE) ∧
       ∀ p ∈ db'.store.root.rules_to_build, p.1 ≠ rule.target.stored) ∧
    (rule.target.transient = true →
       (∃ row' ∈ db'.store.root.rules,
          row'.target = rule.target.stored ∧ row'.status = Database.CLEAR) ∧
       rule ∈ db'.local_rules) ∧
    db'.is_rule_done rule = true := by
  have hbase : ∃ db₂ : Database,
      Database.rule_done_finish db₂ rule = .ok db' ∧
      db₂.store.root.rules = (Database.rule_done_base db rule).store.root.rules ∧
      db₂.store.root.rules_to_build =
        (Database.rule_done_base db rule).store.root.rules_to_build ∧
      db₂.local_rules = (Database.rule_done_base db rule).local_rules := by
    simp only [Database.set_rule_done] at hok
    by_cases hw : rule.target.is_wildcard = true
    · rw [if_pos hw] at hok
      cases hL : Database.set_rule_done_wild_loop (Database.rule_done_base db rule)
          ((Database.rule_done_base db rule).store.root.labels_to_rules.filter
            (fun p => decide (p.2 = rule.target.stored))) with
      | error e => rw [hL] at hok; cases hok
      | ok db₂ =>
        rw [hL] at hok
        have hf := wild_loop_frame _ _ _ hL
        exact ⟨db₂, hok, hf.1, hf.2.1, hf.2.2⟩
    · rw [if_neg hw] at hok
      exact ⟨Database.rule_done_base db rule, hok, rfl, rfl, rfl⟩
  rcases hbase with ⟨db₂, hfin, hr, hb, hl⟩
  have hfo := rule_done_finish_ok db₂ db' rule hfin
  have hrules : db'.store.root.rules =
      (Database.rule_done_base db rule).store.root.rules := hfo.1.trans hr
  have hrtb : db'.store.root.rules_to_build =
      (Database.rule_done_base db rule).store.root.rules_to_build := hfo.2.1.trans hb
  have hlr : db'.local_rules = (Database.rule_done_base db rule).local_rules :=
    hfo.2.2.1.trans hl
  refine ⟨?_, ?_, hfo.2.2.2⟩
  · intro htr
    constructor
    · refine ⟨{ row with status := Database.DONE, owner_pid := none, owner_uuid := none },
        ?_, htgt, rfl⟩
      rw [hrules, rule_done_base_rules]
      have := List.mem_map_of_mem (fun r : RuleRow =>
        if decide (r.target = rule.target.stored) then
          { r with status := if rule.target.transient then Database.CLEAR else Database.DONE,
                   owner_pid := none, owner_uuid := none }
        else r) hmem
      simpa [htgt, htr] using this
    · intro p hp
      rw [hrtb, rule_done_base_rtb db rule htr] at hp
      have := List.mem_filter.mp hp
      simpa using this.2
  · intro htr
    constructor
    · refine ⟨{ row with status := Database.CLEAR, owner_pid := none, owner_uuid := none },
        ?_, htgt, rfl⟩
      rw [hrules, rule_done_base_rules]
      have := List.mem_map_of_mem (fun r : RuleRow =>
        if decide (r.target = rule.target.stored) then
          { r with status := if rule.target.transient then Database.CLEAR else Database.DONE,
                   owner_pid := none, owner_uuid := none }
        else r) hmem
      simpa [htgt, htr] using this
    · rw [hlr, rule_done_base_local db rule htr]
      by_cases hc : db.local_rules.contains rule = true
      · rw [if_pos hc]
        exact List.elem_iff.mp hc
      · rw [if_neg (by simpa using hc)]
        exact List.mem_cons_self _ _

/-- C5 witness. -/
theorem rule_done_spec_witness :
    (dbRuleClear.set_rule_done pkgRule).map
      (fun d => d.is_rule_done pkgRule) = Except.ok true := by
  have hko : (dbRuleClear.set_rule_done pkgRule).isOk = true := by decide
  cases hE : dbRuleClear.set_rule_done pkgRule with
  | error e => rw [hE] at hko; cases hko
  | ok d =>
    have h := rule_done_spec dbRuleClear pkgRule pkgRowClear d
      (by decide) (by decide) hE
    simp [Except.map, h.2.2]

/-! ### C3 helper lemmas about get_satisfied_rule -/

/-- Soundness of the candidate loop: a returned rule passed both the
`is_rule_clear` check and the dependency check against the state the
loop ran on. -/
theorem sat_loop_sound (db : Database) :
    ∀ (cands : List (Label × Bool)) (r : Rule),
    Database.sat_rule_loop db cands = .ok (some r) →
    db.is_rule_clear r = true ∧ Database.rule_deps_satisfied db r = true := by
  intro cands
  induction cands with
  | nil =>
    intro r h
    simp only [Database.sat_rule_loop] at h
    cases h
  | cons p rest ih =>
    intro r h
    simp only [Database.sat_rule_loop] at h
    cases hg : Database.get_rule_for_label db p.1 with
    | none => rw [hg] at h; cases h
    | some rule =>
      rw [hg] at h
      replace h : (if (!db.is_rule_clear rule) = true then Database.sat_rule_loop db rest
          else if (!Database.rule_deps_satisfied db rule) = true then
            Database.sat_rule_loop db rest
          else Except.ok (some rule)) = Except.ok (some r) := h
      by_cases hc : db.is_rule_clear rule = true
      · rw [if_neg (by simp [hc])] at h
        by_cases hs : Database.rule_deps_satisfied db rule = true
        · rw [if_neg (by simp [hs])] at h
          have := Except.ok.inj h
          have hrr : rule = r := by injection this
          subst hrr
          exact ⟨hc, hs⟩
        · rw [if_pos (by simpa using hs)] at h
          exact ih r h
      · rw [if_pos (by simpa using hc)] at h
        exact ih r h

/-- A clear rule is neither processing nor done, given the `rules`
primary key (unique targets). -/
theorem clear_not_processing_not_done (db : Database) (r : Rule)
    (hp : db.store.root.rules.Pairwise fun a b => a.target ≠ b.target)
    (hc : db.is_rule_clear r = true) :
    db.is_rule_processing r = false ∧ db.is_rule_done r = false := by
  by_cases ht : r.target.transient = true
  · simp only [Database.is_rule_clear, Database.is_rule_n, ht, if_true] at hc
    have hand := (Bool.and_eq_true _ _).mp hc
    have hbn : ∀ b : Bool, (!b) = true → b = false := by decide
    have hc1 := hbn _ hand.1
    have hc2 := hbn _ hand.2
    constructor
    · simpa [Database.is_rule_processing, Database.is_rule_n, ht,
        Database.PROCESSING, Database.CLEAR, Database.DONE] using hc2
    · simpa [Database.is_rule_done, Database.is_rule_n, ht,
        Database.DONE, Database.CLEAR] using hc1
  · rw [Bool.not_eq_true] at ht
    simp only [Database.is_rule_clear, Database.is_rule_n, ht, Bool.false_eq_true,
      if_false] at hc
    rcases List.any_eq_true.mp hc with ⟨row, hrow, hcond⟩
    simp only [Bool.and_eq_true, decide_eq_true_eq] at hcond
    have hnone : ∀ st : Nat, st ≠ Database.CLEAR →
        Database.ruleRowWithStatus db r.target st = false := by
      intro st hst
      rw [← Bool.not_eq_true, Database.ruleRowWithStatus]
      intro hany
      rcases List.any_eq_true.mp hany with ⟨row2, hrow2, hcond2⟩
      simp only [Bool.and_eq_true, decide_eq_true_eq] at hcond2
      have : row2 = row :=
        eq_of_pairwise_key (fun x => x.target) hp hrow2 hrow
          (hcond2.1.trans hcond.1.symm)
      subst this
      exact hst (hcond2.2.symm ▸ hcond.2)
    constructor
    · simp only [Database.is_rule_processing, Database.is_rule_n, ht,
        Bool.false_eq_true, if_false]
      exact hnone Database.PROCESSING (by simp [Database.PROCESSING, Database.CLEAR])
    · simp only [Database.is_rule_done, Database.is_rule_n, ht,
        Bool.false_eq_true, if_false]
      exact hnone Database.DONE (by simp [Database.DONE, Database.CLEAR])

/-! ### C3: rules returned by get_satisfied_rule -/

/-- C3: every rule returned by `get_satisfied_rule` is clear (neither
processing nor done, given unique rule targets), and every one of its
dependency labels passes `is_tag_done` — the check that
`_rule_deps_satisfied` performs per dependency against the appropriate
domain's labels table or the local transient set — at the state the
query ran on; a rule failing either check is skipped, never
returned. -/
theorem satisfied_rule_sound (db : Database) (am rm : Bool) (r : Rule)
    (hp : db.store.root.rules.Pairwise fun a b => a.target ≠ b.target)
    (hok : db.get_satisfied_rule am rm = .ok (some r)) :
    db.is_rule_clear r = true ∧
    db.is_rule_processing r = false ∧
    db.is_rule_done r = false ∧
    ∀ l ∈ r.deps, db.is_tag_done l = true := by
  have hloop := sat_loop_sound db _ r hok
  have hnd := clear_not_processing_not_done db r hp hloop.1
  refine ⟨hloop.1, hnd.1, hnd.2, ?_⟩
  intro l hl
  have := hloop.2
  rw [Database.rule_deps_satisfied] at this
  exact List.all_eq_true.mp this l hl

/-- C3 witness. -/
theorem satisfied_rule_sound_witness :
    dbFrontier.get_satisfied_rule false false = .ok (some pkgRule) ∧
    dbFrontier.is_rule_clear pkgRule = true ∧
    dbFrontier.is_rule_processing pkgRule = false ∧
    dbFrontier.is_rule_done pkgRule = false := by
  have h := satisfied_rule_sound dbFrontier false false pkgRule
    (by decide) (by decide)
  exact ⟨by decide, h.1, h.2.1, h.2.2.1⟩

/-! ### C6: wildcard completion never sets the label tag (code bug) -/

/-- C6: completing the wildcard rule leaves `pkgLabel` untagged even
though every wildcard rule matching `pkgLabel` is done and the
exact-match rule is done as is_rule_done reports; the label's row never
appears in the labels table, because `_label_exact_rule_done` computes
`is_rule_done` but falls off without a return statement, so the caller
always receives the falsy `None` and `set_tag` is never invoked from
this path. -/
theorem wildcard_completion_never_tags :
    wildRule.target.is_wildcard = true ∧
    (dbWild.set_rule_done wildRule).map (fun d =>
      (Database.label_wild_rules_done d pkgLabel,
       d.is_rule_done pkgRule,
       Database.label_exact_rule_done d pkgLabel,
       d.is_tag_done pkgLabel,
       d.store.root.labels)) =
      .ok (true, true, .ok none, false, []) := by decide

/-! ### C7: subdomain adding an upstream on a repo the parent uses (code bug) -/

/-- C7: when the parent merely has a checkout using repository `R`
with no recorded upstreams and the subdomain's table adds an upstream
for `R`, the merge raises `KeyError` (from
`self.upstream_repositories[orig_repo]` inside
`_subdomain_new_upstream`), not the explanatory `GiveUp` the claim
describes; when the parent does record upstreams for `R`, the merge
does raise `GiveUp`. -/
theorem subdomain_upstream_keyerror :
    merge_subdomain_upstreams c7ParentNoUp "sub1" c7Sub =
      .error Database.Err.pyKeyError ∧
    (c7ParentNoUp.checkout_data.map Prod.snd).contains "R" = true ∧
    alookup c7ParentNoUp.upstream_repositories "R" = none ∧
    raisesGiveUp (merge_subdomain_upstreams c7ParentUp "sub1" c7SubNew) = true := by
  decide

/-! ### C8 helper lemmas about get_implicit_gpl_checkouts -/

/-- Membership after `add_if_not_us_or_gpl`: either it was there
before, or it was added with all the function's checks passing. -/
theorem add_mem (b : Builder) (co tc : Label)
    (acc : List Label × List (Label × List (Label × Label)))
    (reason : Label × Label) (lbl : Label)
    (h : lbl ∈ (add_if_not_us_or_gpl b co tc acc reason).1) :
    lbl ∈ acc.1 ∨ added_via b co tc lbl := by
  simp only [add_if_not_us_or_gpl] at h
  by_cases h1 : co.sameIdent tc = true
  · rw [if_pos h1] at h
    exact Or.inl h
  · rw [if_neg h1] at h
    rw [Bool.not_eq_true] at h1
    cases hlic : get_checkout_license_opt b tc with
    | none =>
      simp only [hlic] at h
      by_cases h2 : acc.1.any (fun x => x.sameIdent (tc.copy_with_tag "*")) = true
      · rw [if_pos h2] at h
        exact Or.inl h
      · rw [if_neg h2] at h
        rcases List.mem_cons.mp h with rfl | h3
        · refine Or.inr ⟨h1, ?_, rfl⟩
          intro lic hl
          rw [hlic] at hl
          cases hl
        · exact Or.inl h3
    | some lic =>
      simp only [hlic] at h
      by_cases hg : lic.is_gpl = true
      · rw [if_pos hg] at h
        exact Or.inl h
      · rw [if_neg hg] at h
        rw [Bool.not_eq_true] at hg
        by_cases h2 : acc.1.any (fun x => x.sameIdent (tc.copy_with_tag "*")) = true
        · rw [if_pos h2] at h
          exact Or.inl h
        · rw [if_neg h2] at h
          rcases List.mem_cons.mp h with rfl | h3
          · refine Or.inr ⟨h1, ?_, rfl⟩
            intro lic' hl
            rw [hlic] at hl
            injection hl with he
            rw [he] at hg
            exact hg
          · exact Or.inl h3

/-- Membership after the package-expansion fold inside
`implicit_step`. -/
theorem pkg_fold_mem (b : Builder) (co t : Label) (lbl : Label) :
    ∀ (tcs : List Label) (acc : List Label × List (Label × List (Label × Label))),
    lbl ∈ (tcs.foldl (fun acc this_co =>
      if (get_license_not_affected_by b this_co).any (fun x => x.sameIdent co) then acc
      else add_if_not_us_or_gpl b co this_co acc (t.copy_with_tag "*", co)) acc).1 →
    lbl ∈ acc.1 ∨ ∃ tc, tc ∈ tcs ∧
      (get_license_not_affected_by b tc).any (fun x => x.sameIdent co) = false ∧
      added_via b co tc lbl := by
  intro tcs
  induction tcs with
  | nil => intro acc h; exact Or.inl h
  | cons tc rest ih =>
    intro acc h
    simp only [List.foldl_cons] at h
    rcases ih _ h with h2 | ⟨tc', htc', hna, hav⟩
    · by_cases hn : (get_license_not_affected_by b tc).any (fun x => x.sameIdent co) = true
      · rw [if_pos hn] at h2
        exact Or.inl h2
      · rw [if_neg hn] at h2
        rcases add_mem b co tc acc _ lbl h2 with h3 | h3
        · exact Or.inl h3
        · exact Or.inr ⟨tc, List.mem_cons_self _ _, by simpa using hn, h3⟩
    · exact Or.inr ⟨tc', List.mem_cons_of_mem _ htc', hna, hav⟩

/-- Membership after one `implicit_step`. -/
theorem implicit_step_mem (b : Builder) (co t : Label)
    (acc : List Label × List (Label × List (Label × Label))) (lbl : Label)
    (h : lbl ∈ (implicit_step b co acc t).1) :
    lbl ∈ acc.1 ∨ step_witness b co t lbl := by
  simp only [implicit_step] at h
  by_cases hp : t.type = "package"
  · rw [if_pos hp] at h
    by_cases hn : (get_license_not_affected_by b t).any (fun x => x.sameIdent co) = true
    · rw [if_pos hn] at h
      exact Or.inl h
    · rw [if_neg hn] at h
      rcases pkg_fold_mem b co t lbl _ acc h with h2 | ⟨tc, htc, hna, hav⟩
      · exact Or.inl h2
      · exact Or.inr (Or.inl ⟨hp, by simpa using hn, tc, htc, hna, hav⟩)
  · rw [if_neg hp] at h
    by_cases hc : t.type = "checkout"
    · rw [if_pos hc] at h
      rcases add_mem b co t acc _ lbl h with h2 | h2
      · exact Or.inl h2
      · exact Or.inr (Or.inr ⟨hc, h2⟩)
    · rw [if_neg hc] at h
      exact Or.inl h

/-- Membership after folding `implicit_step` over `required_by co`. -/
theorem step_fold_mem (b : Builder) (co : Label) (lbl : Label) :
    ∀ (ts : List Label) (acc : List Label × List (Label × List (Label × Label))),
    lbl ∈ (ts.foldl (implicit_step b co) acc).1 →
    lbl ∈ acc.1 ∨ ∃ t, t ∈ ts ∧ step_witness b co t lbl := by
  intro ts
  induction ts with
  | nil => intro acc h; exact Or.inl h
  | cons t rest ih =>
    intro acc h
    simp only [List.foldl_cons] at h
    rcases ih _ h with h2 | ⟨t', ht', hw⟩
    · rcases implicit_step_mem b co t acc lbl h2 with h3 | h3
      · exact Or.inl h3
      · exact Or.inr ⟨t, List.mem_cons_self _ _, h3⟩
    · exact Or.inr ⟨t', List.mem_cons_of_mem _ ht', hw⟩

/-- Membership in a successful `implicit_co_loop` result. -/
theorem co_loop_mem (b : Builder) (lbl : Label) :
    ∀ (cos : List Label) (acc res : List Label × List (Label × List (Label × Label))),
    implicit_co_loop b cos acc = .ok res → lbl ∈ res.1 →
    lbl ∈ acc.1 ∨ ∃ co, co ∈ cos ∧ origin_witness b co lbl := by
  intro cos
  induction cos with
  | nil =>
    intro acc res hok hmem
    simp only [implicit_co_loop] at hok
    cases hok
    exact Or.inl hmem
  | cons co rest ih =>
    intro acc res hok hmem
    simp only [implicit_co_loop] at hok
    cases hlic : get_checkout_license_opt b co with
    | none => rw [hlic] at hok; cases hok
    | some lic =>
      rw [hlic] at hok
      replace hok : (if (!lic.propagates) = true then implicit_co_loop b rest acc
          else if get_nothing_builds_against b co = true then implicit_co_loop b rest acc
          else implicit_co_loop b rest
            ((b.required_by co).foldl (implicit_step b co) acc)) = .ok res := hok
      by_cases hprop : lic.propagates = true
      · rw [if_neg (by simp [hprop])] at hok
        by_cases hnb : get_nothing_builds_against b co = true
        · rw [if_pos hnb] at hok
          rcases ih _ _ hok hmem with h2 | ⟨co', hco', hw⟩
          · exact Or.inl h2
          · exact Or.inr ⟨co', List.mem_cons_of_mem _ hco', hw⟩
        · rw [if_neg hnb] at hok
          rcases ih _ _ hok hmem with h2 | ⟨co', hco', hw⟩
          · rcases step_fold_mem b co lbl _ acc h2 with h3 | ⟨t, ht, hw⟩
            · exact Or.inl h3
            · exact Or.inr ⟨co, List.mem_cons_self _ _,
                ⟨lic, hlic, hprop⟩, by simpa using hnb, t, ht, hw⟩
          · exact Or.inr ⟨co', List.mem_cons_of_mem _ hco', hw⟩
      · rw [if_pos (by simpa using hprop)] at hok
        rcases ih _ _ hok hmem with h2 | ⟨co', hco', hw⟩
        · exact Or.inl h2
        · exact Or.inr ⟨co', List.mem_cons_of_mem _ hco', hw⟩

/-! ### C8: soundness of the implicit-GPL walk (corrected) -/

/-- C8 counterexample: in `c8B` the checkout `c8X` is reached from the
GPL checkout `c8A` only directly as a checkout label, and the entry
`license_not_affected_by(c8X) ∋ c8A` is recorded — yet the result
still contains `c8X` (tag `*`), because the direct-checkout branch of
the walk never consults `license_not_affected_by`. -/
theorem implicit_gpl_checkout_exception_ignored :
    (get_implicit_gpl_checkouts c8B).map Prod.fst =
      .ok [c8X.copy_with_tag "*"] ∧
    (get_license_not_affected_by c8B c8X).any (fun x => x.sameIdent c8A) = true ∧
    c8B.required_by c8A = [c8X] ∧
    get_gpl_checkouts c8B = [c8A] := by decide

/-- C8 amended: every label in the result of
`get_implicit_gpl_checkouts` has a non-GPL (or no) license of its own,
and is reached by walking `required_by` from some GPL checkout whose
license propagates and which is not exempted by
`nothing_builds_against`, the contributing checkout not being a variant
of the origin; the `license_not_affected_by` filter applies on the
package path (to the package label and to each expanded checkout), but
not to a checkout label found directly in `required_by`. -/
theorem implicit_gpl_sound (b : Builder)
    (res : List Label × List (Label × List (Label × Label)))
    (hok : get_implicit_gpl_checkouts b = .ok res)
    (lbl : Label) (hmem : lbl ∈ res.1) :
    (∀ lic, get_checkout_license_opt b lbl = some lic → lic.is_gpl = false) ∧
    ∃ co, co ∈ get_gpl_checkouts b ∧ origin_witness b co lbl := by
  have h := co_loop_mem b lbl (get_gpl_checkouts b) ([], []) res hok hmem
  rcases h with h | ⟨co, hco, hw⟩
  · cases h
  · constructor
    · rcases hw with ⟨_, _, t, _, hsw⟩
      rcases hsw with ⟨_, _, tc, _, _, ⟨_, hlic, hlbl⟩⟩ | ⟨_, _, hlic, hlbl⟩
      · intro lic hl
        rw [hlbl] at hl
        exact hlic lic hl
      · intro lic hl
        rw [hlbl] at hl
        exact hlic lic hl
    · exact ⟨co, hco, hw⟩

/-- C8 witness for the amended theorem. -/
theorem implicit_gpl_sound_witness :
    (∀ lic, get_checkout_license_opt c8B (c8X.copy_with_tag "*") = some lic →
      lic.is_gpl = false) ∧
    ∃ co, co ∈ get_gpl_checkouts c8B ∧
      origin_witness c8B co (c8X.copy_with_tag "*") := by
  have h1 : (get_implicit_gpl_checkouts c8B).map Prod.fst =
      .ok [c8X.copy_with_tag "*"] := by decide
  cases hE : get_implicit_gpl_checkouts c8B with
  | error e => rw [hE] at h1; cases h1
  | ok res =>
    rw [hE] at h1
    simp only [Except.map, Except.ok.injEq] at h1
    exact implicit_gpl_sound c8B res hE (c8X.copy_with_tag "*")
      (by rw [h1]; exact List.mem_singleton.mpr rfl)

/-! ### C9 helper lemmas about the substitution parser -/

theorem pd_text_scan_none (esc : Bool) (p : List Char)
    (hp : ∀ c ∈ p, ¬(c = '$') ∧ (esc = true → ¬(c = '\\'))) :
    ∀ (f : Nat) (cur : List Char) (acc : List TreeNode) (rest : List Char),
    parse_document (f + p.length) (p ++ rest) none esc 0 cur acc =
      parse_document f rest none esc 0 (cur ++ p) acc := by
  induction p with
  | nil => intro f cur acc rest; simp
  | cons c p' ih =>
    intro f cur acc rest
    obtain ⟨hd, he⟩ := hp c (List.mem_cons_self _ _)
    have hrest : ∀ x ∈ p', ¬(x = '$') ∧ (esc = true → ¬(x = '\\')) :=
      fun x hx => hp x (List.mem_cons_of_mem _ hx)
    show parse_document ((f + p'.length) + 1) (c :: (p' ++ rest)) none esc 0 cur acc = _
    rw [parse_document.eq_def]
    simp only []
    rw [if_neg (by simp), if_pos trivial, if_neg hd]
    have hesc : ¬((decide (c = '\\') && esc) = true) := by
      cases hE : esc
      · simp
      · simp [hE, he hE]
    rw [if_neg hesc]
    rw [ih hrest f (cur ++ [c]) acc rest]
    simp

theorem pd_text_scan_some (esc : Bool) (ecs : List Char) (p : List Char)
    (hp : ∀ c ∈ p, ¬(c = '$') ∧ (esc = true → ¬(c = '\\')) ∧ ecs.contains c = false) :
    ∀ (f : Nat) (cur : List Char) (acc : List TreeNode) (rest : List Char),
    parse_document (f + p.length) (p ++ rest) (some ecs) esc 0 cur acc =
      parse_document f rest (some ecs) esc 0 (cur ++ p) acc := by
  induction p with
  | nil => intro f cur acc rest; simp
  | cons c p' ih =>
    intro f cur acc rest
    obtain ⟨hd, he, hc⟩ := hp c (List.mem_cons_self _ _)
    have hrest : ∀ x ∈ p', ¬(x = '$') ∧ (esc = true → ¬(x = '\\')) ∧ ecs.contains x = false :=
      fun x hx => hp x (List.mem_cons_of_mem _ hx)
    show parse_document ((f + p'.length) + 1) (c :: (p' ++ rest)) (some ecs) esc 0 cur acc = _
    rw [parse_document.eq_def]
    simp only []
    have hc' : c ∉ ecs := by simpa using hc
    rw [if_neg (by simp [hc']), if_pos trivial, if_neg hd]
    have hesc : ¬((decide (c = '\\') && esc) = true) := by
      cases hE : esc
      · simp
      · simp [hE, he hE]
    rw [if_neg hesc]
    rw [ih hrest f (cur ++ [c]) acc rest]
    simp

theorem pd_eof_none (f : Nat) (esc : Bool) (state : Nat) (cur : List Char)
    (acc : List TreeNode) :
    parse_document (f + 1) [] none esc state cur acc =
      .ok (acc ++ [.strNode (String.mk cur)], []) := rfl

theorem pd_end_some (f : Nat) (esc : Bool) (ecs : List Char) (c : Char)
    (rest cur : List Char) (acc : List TreeNode) (hc : ecs.contains c = true) :
    parse_document (f + 1) (c :: rest) (some ecs) esc 0 cur acc =
      .ok (acc ++ [.strNode (String.mk cur)], c :: rest) := by
  rw [parse_document.eq_def]
  simp only []
  have hc' : c ∈ ecs := by simpa using hc
  rw [if_pos (by simp [hc'])]

theorem pd_scan_ge_none (esc : Bool) (p : List Char)
    (hp : ∀ c ∈ p, ¬(c = '$') ∧ (esc = true → ¬(c = '\\')))
    (g : Nat) (hg : p.length ≤ g) (cur : List Char) (acc : List TreeNode)
    (rest : List Char) :
    parse_document g (p ++ rest) none esc 0 cur acc =
      parse_document (g - p.length) rest none esc 0 (cur ++ p) acc := by
  obtain ⟨f, rfl⟩ : ∃ f, g = f + p.length := ⟨g - p.length, by omega⟩
  rw [pd_text_scan_none esc p hp f cur acc rest]
  congr 1
  omega

theorem pd_plain_to_end (esc : Bool) (p : List Char)
    (hp : ∀ c ∈ p, ¬(c = '$') ∧ (esc = true → ¬(c = '\\')))
    (g : Nat) (hg : p.length + 1 ≤ g) (cur : List Char) (acc : List TreeNode) :
    parse_document g p none esc 0 cur acc =
      .ok (acc ++ [.strNode (String.mk (cur ++ p))], []) := by
  have h0 : p = p ++ [] := by simp
  rw [h0, pd_scan_ge_none esc p hp g (by omega) cur acc []]
  obtain ⟨f, hf⟩ : ∃ f, g - p.length = f + 1 := ⟨g - p.length - 1, by omega⟩
  rw [hf, pd_eof_none]
  simp

theorem plain_key_char_facts (c : Char) (h : plain_key_char c = true) :
    ¬(c = '$') ∧ ¬(c = '\\') ∧ ¬(c = ':') ∧ ¬(c = braceL) ∧ ¬(c = braceR) ∧
    ¬(c = '"') ∧ py_ws c = false ∧
      (c = ' ' || c = '\r' || c = '\t' || c = '\n') = false := by
  simp [plain_key_char] at h
  simp [py_ws, h]

theorem skip_ws_cons (c : Char) (t : List Char)
    (h : (c = ' ' || c = '\r' || c = '\t' || c = '\n') = false) :
    skip_whitespace (c :: t) = c :: t := by
  simp only [skip_whitespace, List.dropWhile_cons, h]
  simp

theorem pi_plain_key (c0 : Char) (k' : List Char)
    (hk : ∀ x ∈ c0 :: k', plain_key_char x = true)
    (g : Nat) (hg : (c0 :: k').length + 2 ≤ g) (rest : List Char) :
    parse_instruction g ((c0 :: k') ++ braceR :: rest) =
      .ok (.instrVal (.container [.strNode (String.mk (c0 :: k'))]), braceR :: rest) := by
  obtain ⟨f, rfl⟩ : ∃ f, g = f + 1 := ⟨g - 1, by omega⟩
  rw [parse_instruction.eq_def]
  simp only []
  obtain ⟨_, _, _, _, _, _, _, hws⟩ := plain_key_char_facts c0 (hk c0 (List.mem_cons_self _ _))
  rw [show skip_whitespace ((c0 :: k') ++ braceR :: rest) = (c0 :: k') ++ braceR :: rest from
    skip_ws_cons c0 _ hws]
  rw [if_neg (by
    obtain ⟨_, _, _, _, _, hq, _, _⟩ := plain_key_char_facts c0 (hk c0 (List.mem_cons_self _ _))
    simp [hq])]
  have hscan : ∀ x ∈ c0 :: k', ¬(x = '$') ∧ (true = true → ¬(x = '\\')) ∧
      ([':', braceR].contains x = false) := by
    intro x hx
    obtain ⟨h1, h2, h3, _, h5, _, _, _⟩ := plain_key_char_facts x (hk x hx)
    refine ⟨h1, fun _ => h2, ?_⟩
    simp [List.contains, h3, h5]
  have hpd : parse_document f ((c0 :: k') ++ braceR :: rest) (some [':', braceR]) true 0 [] [] =
      .ok ([.strNode (String.mk (c0 :: k'))], braceR :: rest) := by
    obtain ⟨f1, rfl⟩ : ∃ f1, f = (f1 + 1) + (c0 :: k').length :=
      ⟨f - (c0 :: k').length - 1, by simp at hg ⊢; omega⟩
    rw [pd_text_scan_some true [':', braceR] (c0 :: k') hscan (f1 + 1) [] [] (braceR :: rest)]
    rw [pd_end_some f1 true [':', braceR] braceR rest ([] ++ (c0 :: k')) [] (by decide)]
    simp
  rw [hpd]
  simp only []
  rw [if_neg (by decide : ¬(braceR = ':'))]


theorem plain_text_not_dollar (p : List Char)
    (hp : ∀ x ∈ p, plain_text_char x = true) :
    ∀ x ∈ p, ¬(x = '$') ∧ (false = true → ¬(x = '\\')) := by
  intro x hx
  have := hp x hx
  simp [plain_text_char] at this
  exact ⟨this, by simp⟩

theorem pd_placeholder (p s : List Char) (c0 : Char) (k' : List Char)
    (hp : ∀ x ∈ p, plain_text_char x = true)
    (hk : ∀ x ∈ c0 :: k', plain_key_char x = true)
    (hs : ∀ x ∈ s, plain_text_char x = true)
    (g : Nat) (hg1 : p.length + 2 + ((c0 :: k').length + 2) ≤ g)
    (hg2 : p.length + 2 + (s.length + 1) ≤ g) :
    parse_document g (p ++ '$' :: braceL :: ((c0 :: k') ++ braceR :: s)) none false 0 [] [] =
      .ok ([.strNode (String.mk p),
            .instrVal (.container [.strNode (String.mk (c0 :: k'))]),
            .strNode (String.mk s)], []) := by
  rw [pd_scan_ge_none false p (plain_text_not_dollar p hp) g (by omega) [] [] _]
  obtain ⟨g1, hg1e⟩ : ∃ g1, g - p.length = g1 + 1 := ⟨g - p.length - 1, by omega⟩
  rw [hg1e, parse_document.eq_def]
  simp only []
  rw [if_neg (by simp), if_pos trivial, if_pos trivial]
  obtain ⟨g2, hg2e⟩ : ∃ g2, g1 = g2 + 1 := ⟨g1 - 1, by omega⟩
  rw [hg2e, parse_document.eq_def]
  simp only []
  rw [if_neg (by simp), if_neg (by simp), if_pos trivial, if_neg (by decide), if_pos trivial]
  rw [pi_plain_key c0 k' hk g2 (by simp at hg1 ⊢; omega) s]
  simp only []
  rw [if_pos trivial]
  rw [pd_plain_to_end false s (plain_text_not_dollar s hs) g2 (by omega) [] _]
  simp

theorem pd_escape (p t s : List Char)
    (hp : ∀ x ∈ p, plain_text_char x = true)
    (ht : ∀ x ∈ t, plain_text_char x = true)
    (hs : ∀ x ∈ s, plain_text_char x = true)
    (g : Nat) (hg : p.length + 3 + (t.length + s.length + 2) ≤ g) :
    parse_document g (p ++ '$' :: '$' :: braceL :: (t ++ braceR :: s)) none false 0 [] [] =
      .ok ([.strNode (String.mk (p ++ '$' :: braceL :: (t ++ braceR :: s)))], []) := by
  rw [pd_scan_ge_none false p (plain_text_not_dollar p hp) g (by omega) [] [] _]
  obtain ⟨g1, hg1e⟩ : ∃ g1, g - p.length = g1 + 1 := ⟨g - p.length - 1, by omega⟩
  rw [hg1e, parse_document.eq_def]
  simp only []
  rw [if_neg (by simp), if_pos trivial, if_pos trivial]
  obtain ⟨g2, hg2e⟩ : ∃ g2, g1 = g2 + 1 := ⟨g1 - 1, by omega⟩
  rw [hg2e, parse_document.eq_def]
  simp only []
  rw [if_neg (by simp), if_neg (by simp), if_pos trivial, if_pos trivial]
  obtain ⟨g3, hg3e⟩ : ∃ g3, g2 = g3 + 1 := ⟨g2 - 1, by omega⟩
  rw [hg3e, parse_document.eq_def]
  simp only []
  rw [if_neg (by simp), if_neg (by simp), if_neg (by simp), if_pos trivial, if_pos trivial]
  have hplain : ∀ x ∈ t ++ braceR :: s, ¬(x = '$') ∧ (false = true → ¬(x = '\\')) := by
    intro x hx
    rcases List.mem_append.mp hx with hx | hx
    · exact plain_text_not_dollar t ht x hx
    · rcases List.mem_cons.mp hx with rfl | hx
      · exact ⟨by decide, by simp⟩
      · exact plain_text_not_dollar s hs x hx
  rw [pd_plain_to_end false (t ++ braceR :: s) hplain g3 (by simp at hg ⊢; omega) _ _]
  simp

theorem dropWhile_no_ws (l : List Char) (h : ∀ c ∈ l, py_ws c = false) :
    l.dropWhile py_ws = l := by
  cases l with
  | nil => rfl
  | cons a t => simp [List.dropWhile_cons, h a (List.mem_cons_self _ _)]

theorem py_strip_plain (k : List Char) (h : ∀ c ∈ k, py_ws c = false) :
    py_strip (String.mk k) = String.mk k := by
  have h2 : ∀ c ∈ k.reverse, py_ws c = false := by
    intro c hc
    exact h c (List.mem_reverse.mp hc)
  show String.mk (((k.dropWhile py_ws).reverse.dropWhile py_ws).reverse) = String.mk k
  rw [dropWhile_no_ws k h, dropWhile_no_ws k.reverse h2, List.reverse_reverse]

theorem eval_placeholder_nodes (xml : Option XmlNode) (env : List (String × String))
    (p s : List Char) (c0 : Char) (k' : List Char)
    (hk : ∀ x ∈ c0 :: k', plain_key_char x = true)
    (hslash : ¬(c0 = '/')) :
    TreeNode.evalList xml env
      [.strNode (String.mk p),
       .instrVal (.container [.strNode (String.mk (c0 :: k'))]),
       .strNode (String.mk s)] =
      (match alookup env (String.mk (c0 :: k')) with
       | some v => .ok (String.mk p ++ v ++ String.mk s)
       | none => .error (.giveUp
           ("Environment variable '" ++ String.mk (c0 :: k') ++ "' not defined."))) := by
  have hkey : py_strip (String.mk (c0 :: k') ++ "") = String.mk (c0 :: k') := by
    rw [show String.mk (c0 :: k') ++ "" = String.mk (c0 :: k') by simp]
    apply py_strip_plain
    intro c hc
    exact (plain_key_char_facts c (hk c hc)).2.2.2.2.2.2.1
  have hq : query_string_value xml env (py_strip (String.mk (c0 :: k') ++ "")) =
      (match alookup env (String.mk (c0 :: k')) with
       | some v => .ok (some v)
       | none => .error (.giveUp
           ("Environment variable '" ++ String.mk (c0 :: k') ++ "' not defined."))) := by
    rw [hkey]
    rw [query_string_value.eq_def]
    rw [if_neg (by simp [String.length])]
    rw [if_neg (by simp [hslash])]
  simp only [TreeNode.evalList, TreeNode.eval]
  rw [hq]
  cases halk : alookup env (String.mk (c0 :: k')) with
  | some v => simp [String.append_assoc]
  | none => simp

theorem subst_str_spec (xml : Option XmlNode) (env : List (String × String))
    (p s t : List Char) (c0 : Char) (k' : List Char)
    (hp : ∀ x ∈ p, plain_text_char x = true)
    (hk : ∀ x ∈ c0 :: k', plain_key_char x = true)
    (hs : ∀ x ∈ s, plain_text_char x = true)
    (ht : ∀ x ∈ t, plain_text_char x = true)
    (hslash : ¬(c0 = '/')) :
    (∀ v, alookup env (String.mk (c0 :: k')) = some v →
      subst_str (String.mk (p ++ '$' :: braceL :: ((c0 :: k') ++ braceR :: s))) xml env =
        .ok (String.mk p ++ v ++ String.mk s)) ∧
    (alookup env (String.mk (c0 :: k')) = none →
      subst_str (String.mk (p ++ '$' :: braceL :: ((c0 :: k') ++ braceR :: s))) xml env =
        .error (.giveUp
          ("Environment variable '" ++ String.mk (c0 :: k') ++ "' not defined."))) ∧
    subst_str (String.mk (p ++ '$' :: '$' :: braceL :: (t ++ braceR :: s))) xml env =
      .ok (String.mk (p ++ '$' :: braceL :: (t ++ braceR :: s))) := by
  have hmain : subst_str (String.mk (p ++ '$' :: braceL :: ((c0 :: k') ++ braceR :: s))) xml env =
      (match alookup env (String.mk (c0 :: k')) with
       | some v => .ok (String.mk p ++ v ++ String.mk s)
       | none => .error (.giveUp
           ("Environment variable '" ++ String.mk (c0 :: k') ++ "' not defined."))) := by
    rw [subst_str]
    rw [show (String.mk (p ++ '$' :: braceL :: ((c0 :: k') ++ braceR :: s))).toList =
        p ++ '$' :: braceL :: ((c0 :: k') ++ braceR :: s) from rfl]
    rw [pd_placeholder p s c0 k' hp hk hs _ (by simp [String.length]; omega)
      (by simp [String.length]; omega)]
    exact eval_placeholder_nodes xml env p s c0 k' hk hslash
  refine ⟨?_, ?_, ?_⟩
  · intro v hv
    rw [hmain, hv]
  · intro hv
    rw [hmain, hv]
  · rw [subst_str]
    rw [show (String.mk (p ++ '$' :: '$' :: braceL :: (t ++ braceR :: s))).toList =
        p ++ '$' :: '$' :: braceL :: (t ++ braceR :: s) from rfl]
    rw [pd_escape p t s hp ht hs _ (by simp [String.length]; omega)]
    simp only [TreeNode.evalList, TreeNode.eval]
    simp

/-! ### C9: the substitution of placeholders -/

/-- C9: for a placeholder `${KEY}` made of ordinary key characters not
beginning with `/`, embedded in plain text: it is replaced by the value
of `KEY` in the supplied environment; a `GiveUp` error is raised when
`KEY` is not defined there; and the escaped form `$${...}` is not
treated as a placeholder, producing the literal text `${...}`. -/
theorem subst_placeholder_spec (xml : Option XmlNode) (env : List (String × String))
    (p s t : List Char) (c0 : Char) (k' : List Char)
    (hp : ∀ x ∈ p, plain_text_char x = true)
    (hk : ∀ x ∈ c0 :: k', plain_key_char x = true)
    (hs : ∀ x ∈ s, plain_text_char x = true)
    (ht : ∀ x ∈ t, plain_text_char x = true)
    (hslash : ¬(c0 = '/')) :
    (∀ v, alookup env (String.mk (c0 :: k')) = some v →
      subst_str (String.mk (p ++ '$' :: braceL :: ((c0 :: k') ++ braceR :: s))) xml env =
        .ok (String.mk p ++ v ++ String.mk s)) ∧
    (alookup env (String.mk (c0 :: k')) = none →
      subst_str (String.mk (p ++ '$' :: braceL :: ((c0 :: k') ++ braceR :: s))) xml env =
        .error (.giveUp
          ("Environment variable '" ++ String.mk (c0 :: k') ++ "' not defined."))) ∧
    subst_str (String.mk (p ++ '$' :: '$' :: braceL :: (t ++ braceR :: s))) xml env =
      .ok (String.mk (p ++ '$' :: braceL :: (t ++ braceR :: s))) :=
  subst_str_spec xml env p s t c0 k' hp hk hs ht hslash

/-- C9 witness. -/
theorem subst_placeholder_spec_witness :
    subst_str (String.mk ['a', '$', braceL, 'K', 'E', 'Y', braceR, 'b']) none
      [("KEY", "v")] = .ok "avb" ∧
    subst_str (String.mk ['a', '$', braceL, 'K', 'E', 'Y', braceR, 'b']) none [] =
      .error (.giveUp "Environment variable 'KEY' not defined.") ∧
    subst_str (String.mk ['a', '$', '$', braceL, 'F', braceR, 'b']) none [] =
      .ok (String.mk ['a', '$', braceL, 'F', braceR, 'b']) := by
  have h1 := subst_placeholder_spec none [("KEY", "v")] ['a'] ['b'] ['F'] 'K' ['E', 'Y']
    (by decide) (by decide) (by decide) (by decide) (by decide)
  have h2 := subst_placeholder_spec none [] ['a'] ['b'] ['F'] 'K' ['E', 'Y']
    (by decide) (by decide) (by decide) (by decide) (by decide)
  exact ⟨h1.1 "v" (by decide), h2.2.1 (by decide), h2.2.2⟩

end Muddle
